import Mathlib

/-
  Verification development for the DeviceReactor embedded event framework
  (single header: src/DeviceReactor.h).

  The C++ classes are shallowly embedded as Lean structures and pure
  transition functions.  Conventions used throughout:

  * `millis()` is modelled by an explicit `now : Nat` argument; the code's
    wrap-safe elapsed computation `millis() - last >= w` becomes
    `w ≤ now - last` on `Nat` (truncated subtraction, which agrees with the
    unsigned wrap-safe comparison on monotone time traces).
  * `byte` / `unsigned int` / `unsigned long` values are carried as `Nat`;
    where the C++ code can actually wrap (the pulse interpolation
    expressions and the 16-bit blink flip budget) the reduction modulo
    2^16 / 2^32 / 2^8 is written out explicitly.  `int` values are carried as `Int`, with C++ truncating
    division written `Int.tdiv`.
  * Hardware writes (`digitalWrite`, `analogWrite`, `pinMode`) are the
    excluded HardwareIO collaborator; the model keeps the driving state
    (`state`, `level`, colors) from which those writes are computed.
  * Callback invocations are modelled as emitted event lists; an interval
    callback additionally carries an effect (`CbAct`) describing what it
    does to the slot table when invoked, which models reentrant mutation.
  * `while(1)` fatal halts versus warn-and-return are modelled by the
    `Outcome` type.
-/

/-! ## Interval scheduler (class Interval) -/

/-- INVALID_HANDLE constant from the source. -/
def INVALID_HANDLE : Nat := 255

/-- Effect a timer callback has on the slot table when it runs.
`inert` is a callback that does not touch the scheduler; `clearSlot k`
models a callback calling clear(k) (reentrant mutation). -/
inductive CbAct where
  | inert
  | clearSlot (k : Nat)
deriving DecidableEq, Repr

/-- An interval callback: an identifying tag (standing for the function
pointer) together with its effect on the slot table. -/
structure Cb where
  id : Nat
  act : CbAct
deriving DecidableEq, Repr

/-- One interval slot: the arrays callbacks/waits/counts/msgs/lastRuns/paused
of class Interval, gathered per index.  `cb = none` models a null callback
pointer; `count` is the -1 inactive / 0 infinite / positive finite sentinel. -/
structure Slot where
  cb : Option Cb
  wait : Nat
  count : Int
  msg : Nat
  lastRun : Nat
  paused : Bool
deriving DecidableEq, Repr

/-- The slot value produced by Interval::clear. -/
def clearedSlot : Slot :=
  { cb := none, wait := 0, count := -1, msg := 0, lastRun := 0, paused := false }

/-- Interval::clear — bounds-checked invalidation of a slot. -/
def intervalClear (k : Nat) (tbl : List Slot) : List Slot :=
  if k < tbl.length then tbl.set k clearedSlot else tbl

/-- Run a callback's effect on the table. -/
def applyAct (a : CbAct) (tbl : List Slot) : List Slot :=
  match a with
  | .inert => tbl
  | .clearSlot k => intervalClear k tbl

/-- A fired-callback event: which slot fired, which callback, which msg. -/
structure FireEvt where
  slot : Nat
  cbId : Nat
  msg : Nat
deriving DecidableEq, Repr

/-- Overwrite lastRuns[i] (the unconditional `lastRuns[i] = millis()` after
the callback returns). -/
def setLastRun (tbl : List Slot) (i now : Nat) : List Slot :=
  match tbl[i]? with
  | some s => tbl.set i { s with lastRun := now }
  | none => tbl

/-- The body of Interval::update for one slot index `i`: guard on
active/unpaused/non-null, elapsed-time check, snapshot the callback and msg,
invoke the callback (apply its effect), refresh the fire timestamp, then
re-validate the slot before decrementing a finite count and deactivating it
on reaching zero. -/
def intervalStep (now : Nat) (tbl : List Slot) (i : Nat) : List Slot × List FireEvt :=
  match tbl[i]? with
  | none => (tbl, [])
  | some s =>
    match s.cb with
    | none => (tbl, [])
    | some c =>
      if 0 ≤ s.count ∧ s.paused = false then
        if s.wait ≤ now - s.lastRun then
          let tbl1 := applyAct c.act tbl
          let tbl2 := setLastRun tbl1 i now
          let tbl3 :=
            match tbl2[i]? with
            | none => tbl2
            | some s2 =>
              if 0 < s2.count ∧ s2.cb ≠ none then
                let n := s2.count - 1
                tbl2.set i { s2 with count := if n = 0 then -1 else n }
              else tbl2
          (tbl3, [⟨i, c.id, s.msg⟩])
        else (tbl, [])
      else (tbl, [])

/-- Scan the given slot indices in order, threading the table. -/
def scanFrom (now : Nat) (tbl : List Slot) : List Nat → List Slot × List FireEvt
  | [] => (tbl, [])
  | i :: rest =>
    let p := intervalStep now tbl i
    let q := scanFrom now p.1 rest
    (q.1, p.2 ++ q.2)

/-- Interval::update — scan all slots once. -/
def intervalUpdate (now : Nat) (tbl : List Slot) : List Slot × List FireEvt :=
  scanFrom now tbl (List.range tbl.length)

/-- Interval::findSlot — first index whose count is -1, else INVALID_HANDLE. -/
def findSlotAux : List Slot → Nat → Nat
  | [], _ => INVALID_HANDLE
  | s :: rest, i => if s.count = -1 then i else findSlotAux rest (i + 1)

/-- Interval::findSlot from index 0. -/
def findSlot (tbl : List Slot) : Nat := findSlotAux tbl 0

/-- Control outcome of a configuration call: normal return, the
warn-and-ignore path (Serial warning then return), or the fatal
`while(1)` halt. -/
inductive Outcome where
  | proceeded
  | warnedIgnored
  | halted
deriving DecidableEq, Repr

/-- Interval::add — allocate the slot found by findSlot and fully initialize
it; if no slot is free the system halts. -/
def intervalAdd (now : Nat) (tbl : List Slot) (c : Cb) (wait : Nat) (count : Int)
    (msg : Nat) : Outcome × Nat × List Slot :=
  let slot := findSlot tbl
  if tbl.length ≤ slot then (.halted, slot, tbl)
  else (.proceeded, slot,
    tbl.set slot { cb := some c, wait := wait, count := count, msg := msg,
                   lastRun := now, paused := false })

/-! ## Analog stabilization pipeline (class AnalogSensor) -/

/-- A zone: id plus inclusive value range (struct Zone). -/
structure Zone where
  id : Nat
  min_val : Int
  max_val : Int
deriving DecidableEq, Repr

/-- State of one AnalogSensor (the private members of the class).  The C++
field `initialized` is called `initDone` here. -/
structure AnalogState where
  initDone : Bool
  hasInitialRead : Bool
  pin : Nat
  inputMin : Int
  inputMax : Int
  outputMin : Int
  outputMax : Int
  inverted : Bool
  quantizeStep : Int
  delta : Int
  currentValue : Int
  previousValue : Int
  avgSamples : Nat
  avgCount : Nat
  accumulatedSum : Nat
  hasChangeFunc : Bool
  hiResValue : Int
  currentReportedValue : Int
  hysteresis_amount : Int
  zones : List Zone
  currentZoneID : Nat
  previousZoneID : Nat
  hasZoneChangeFunc : Bool
deriving DecidableEq, Repr

/-- Default-constructed AnalogSensor (the in-class member initializers). -/
def initAnalogState : AnalogState :=
  { initDone := false, hasInitialRead := false, pin := 0,
    inputMin := 0, inputMax := 1023, outputMin := 0, outputMax := 1023,
    inverted := false, quantizeStep := 0, delta := 1,
    currentValue := 0, previousValue := 0,
    avgSamples := 1, avgCount := 0, accumulatedSum := 0,
    hasChangeFunc := false, hiResValue := 0, currentReportedValue := 0,
    hysteresis_amount := 0, zones := [], currentZoneID := INVALID_HANDLE,
    previousZoneID := INVALID_HANDLE, hasZoneChangeFunc := false }

/-- AnalogSensor::init — on a second call, print a warning and return with
the state untouched; otherwise record the pin and mark initialization. -/
def analogInit (newPin : Nat) (s : AnalogState) : AnalogState × Outcome :=
  if s.initDone then (s, .warnedIgnored)
  else ({ s with pin := newPin, initDone := true }, .proceeded)

/-- The two sequential clamping ifs used on the input and output ranges. -/
def clampSeq (lo hi v : Int) : Int :=
  let v1 := if v < lo then lo else v
  if hi < v1 then hi else v1

/-- The Arduino map() helper (long arithmetic, truncating division). -/
def arduinoMap (x inMin inMax outMin outMax : Int) : Int :=
  Int.tdiv ((x - inMin) * (outMax - outMin)) (inMax - inMin) + outMin

/-- Round n / q (q positive) half away from zero, the behavior of the C
round() applied to the float quotient.  The float quotient is exact enough
over the sensor's value ranges that the exact rational rule is faithful. -/
def roundDiv (n q : Int) : Int :=
  if 0 ≤ n then (2 * n + q) / (2 * q) else -((2 * (-n) + q) / (2 * q))

/-- AnalogSensor::findZoneForValue — first zone in definition order whose
inclusive range contains the value, else INVALID_HANDLE. -/
def findZoneForValue (zs : List Zone) (v : Int) : Nat :=
  match zs with
  | [] => INVALID_HANDLE
  | z :: rest => if z.min_val ≤ v ∧ v ≤ z.max_val then z.id else findZoneForValue rest v

/-- The smoothing accumulation at the top of AnalogSensor::update: with
more than one sample configured, add the reading into the accumulator,
otherwise overwrite it and mark the single sample ready. -/
def accumulate (raw : Nat) (s : AnalogState) : AnalogState :=
  if 1 < s.avgSamples then
    { s with accumulatedSum := s.accumulatedSum + raw, avgCount := s.avgCount + 1 }
  else
    { s with accumulatedSum := raw, avgCount := 1 }

/-- The hi-res value computed from a completed smoothing window: average the
accumulator, clamp to the input range, map to the output range, clamp to the
output range, then invert if configured. -/
def hiResOf (s : AnalogState) : Int :=
  let avgValue : Int := (s.accumulatedSum / s.avgSamples : Nat)
  let avgValue := clampSeq s.inputMin s.inputMax avgValue
  let m := arduinoMap avgValue s.inputMin s.inputMax s.outputMin s.outputMax
  let m := clampSeq s.outputMin s.outputMax m
  if s.inverted then s.outputMax + s.outputMin - m else m

/-- The quantized candidate: hi-res rounded to the nearest multiple of the
step (half away from zero) and clamped to the output range. -/
def candidateOf (s : AnalogState) (hiRes : Int) : Int :=
  clampSeq s.outputMin s.outputMax (roundDiv hiRes s.quantizeStep * s.quantizeStep)

/-- The Sprint-3 mode-selection logic: returns (valueChanged, newValue). -/
def stabilize (s : AnalogState) (hiRes : Int) : Bool × Int :=
  if 0 < s.quantizeStep then
    let vPot := candidateOf s hiRes
    if vPot ≠ s.currentReportedValue then
      if s.currentReportedValue < vPot then
        let triggerUp := s.currentReportedValue + Int.tdiv s.quantizeStep 2 + s.hysteresis_amount
        if triggerUp ≤ hiRes then (true, vPot) else (false, hiRes)
      else
        let triggerDown := s.currentReportedValue - Int.tdiv s.quantizeStep 2 - s.hysteresis_amount
        if hiRes ≤ triggerDown then (true, vPot) else (false, hiRes)
    else (false, hiRes)
  else if 1 < s.delta then
    if s.delta ≤ |hiRes - s.currentReportedValue| then (true, hiRes) else (false, hiRes)
  else
    if hiRes ≠ s.currentReportedValue then (true, hiRes) else (false, hiRes)

/-- The zone detection and event firing section of AnalogSensor::update.
Returns the new state and the list of onZoneChange invocations. -/
def zoneStage (s : AnalogState) : AnalogState × List Nat :=
  if 0 < s.zones.length then
    let detected := findZoneForValue s.zones s.currentReportedValue
    let s1 := { s with currentZoneID := detected }
    if detected ≠ s1.previousZoneID then
      ({ s1 with previousZoneID := detected },
       if s1.hasZoneChangeFunc then [detected] else [])
    else (s1, [])
  else (s, [])

/-- The processing body of AnalogSensor::update once the smoothing window is
complete: compute the hi-res value, run the stability mode, commit and fire
onChange on a value change, run zone detection, and reset the accumulator.
Returns (state, onChange invocations, onZoneChange invocations). -/
def analogProcess (s : AnalogState) : AnalogState × List Int × List Nat :=
  let h := hiResOf s
  let sv := stabilize s h
  let s1 := { s with hiResValue := h }
  let s2 :=
    if sv.1 then
      { s1 with currentReportedValue := sv.2, currentValue := sv.2, previousValue := sv.2 }
    else s1
  let chg : List Int := if sv.1 ∧ s2.hasChangeFunc then [sv.2] else []
  let zr := zoneStage s2
  ({ zr.1 with accumulatedSum := 0, avgCount := 0 }, chg, zr.2)

/-- AnalogSensor::performInitialRead — seed all state from one reading
without firing any callback. -/
def performInitialRead (raw : Nat) (s : AnalogState) : AnalogState :=
  let s := if 1 < s.avgSamples then
      { s with accumulatedSum := raw * s.avgSamples, avgCount := s.avgSamples }
    else
      { s with accumulatedSum := raw, avgCount := 1 }
  let h := hiResOf s
  let rep :=
    if 0 < s.quantizeStep then
      clampSeq s.outputMin s.outputMax (roundDiv h s.quantizeStep * s.quantizeStep)
    else h
  let s := { s with hiResValue := h, currentReportedValue := rep,
                    currentValue := rep, previousValue := rep }
  let s :=
    if 0 < s.zones.length then
      let z := findZoneForValue s.zones rep
      { s with currentZoneID := z, previousZoneID := z }
    else s
  { s with accumulatedSum := 0, avgCount := 0, hasInitialRead := true }

/-- AnalogSensor::update — initial read on the first call (no events),
otherwise accumulate the reading and process when the window completes. -/
def analogUpdate (raw : Nat) (s : AnalogState) : AnalogState × List Int × List Nat :=
  if s.hasInitialRead = false then (performInitialRead raw s, [], [])
  else
    let s := accumulate raw s
    if s.avgSamples ≤ s.avgCount then analogProcess s else (s, [], [])

/-! ## Digital input state machine (class Button) -/

/-- Persistent state of one Button.  The C++ member `state` (the raw level)
is overwritten at the start of every checkForPress before being read, so
only `oldState` (the committed stable level) and `lastDebounceTime` carry
information between polls.  The C++ field `initialized` is `initDone`. -/
structure BtnState where
  initDone : Bool
  pin : Nat
  pressMode : Nat
  oldState : Bool
  lastDebounceTime : Nat
deriving DecidableEq, Repr

/-- Default-constructed Button (HIGH initial levels, pull-up mode). -/
def initBtnState : BtnState :=
  { initDone := false, pin := 0, pressMode := 2, oldState := true,
    lastDebounceTime := 0 }

/-- Button::init — on a second call, print a warning and return with the
state untouched; otherwise record pin and mode and seed both levels from the
actual pin reading. -/
def buttonInit (newPin newMode : Nat) (raw : Bool) (s : BtnState) : BtnState × Outcome :=
  if s.initDone then (s, .warnedIgnored)
  else ({ s with pin := newPin, pressMode := newMode, oldState := raw,
                 initDone := true }, .proceeded)

/-- Button::checkForPress on one poll: sample the raw level; if it differs
from the committed level and the debounce window has elapsed since the last
accepted transition, commit it and report the new committed level (from
which onPress / onRelease is dispatched against pressMode); otherwise leave
the state untouched.  `D` is DEBOUNCE_DELAY. -/
def buttonStep (D : Nat) (s : BtnState) (now : Nat) (raw : Bool) : BtnState × Option Bool :=
  if raw ≠ s.oldState then
    if D ≤ now - s.lastDebounceTime then
      ({ s with oldState := raw, lastDebounceTime := now }, some raw)
    else (s, none)
  else (s, none)

/-- Feed a timed trace of raw samples through Button::checkForPress,
collecting the committed transitions as (time, new committed level). -/
def buttonRun (D : Nat) (s : BtnState) : List (Nat × Bool) → BtnState × List (Nat × Bool)
  | [] => (s, [])
  | (t, r) :: rest =>
    let p := buttonStep D s t r
    let q := buttonRun D p.1 rest
    (q.1, (match p.2 with | some l => [(t, l)] | none => []) ++ q.2)

/-- Consecutive committed transitions, starting from a base timestamp, are
each at least D apart (Boolean so that concrete traces evaluate). -/
def sepFromB (D : Nat) : Nat → List (Nat × Bool) → Bool
  | _, [] => true
  | base, (t, _) :: rest => decide (base + D ≤ t) && sepFromB D t rest

/-! ## Animation ramp engine (class LED) -/

/-- State of one LED: output driving state plus the blink and pulse/fade
animation registers.  The C++ field `initialized` is `initDone`. -/
structure LedState where
  initDone : Bool
  state : Bool
  level : Nat
  isDimmable : Bool
  blinkCount : Nat
  blinkMax : Nat
  lastBlinkTime : Nat
  blinkDelay : Nat
  blinking : Bool
  pulseCount : Nat
  pulseMax : Nat
  pulseLow : Nat
  pulseHigh : Nat
  pulseDuration : Nat
  pulseUp : Bool
  lastPulseTime : Nat
  pulsing : Bool
deriving DecidableEq, Repr

/-- Default-constructed LED after init(pin): output LOW, full brightness. -/
def initLedState : LedState :=
  { initDone := true, state := false, level := 255, isDimmable := false,
    blinkCount := 0, blinkMax := 0, lastBlinkTime := 0, blinkDelay := 0,
    blinking := false, pulseCount := 0, pulseMax := 0, pulseLow := 0,
    pulseHigh := 255, pulseDuration := 0, pulseUp := true,
    lastPulseTime := 0, pulsing := false }

/-- LED::setState — record the driving state (the hardware write it
performs is the excluded collaborator). -/
def ledSetState (b : Bool) (s : LedState) : LedState :=
  { s with state := b }

/-- LED::setLevel — mark dimmable, store the level, and refresh the output
if it is currently on. -/
def ledSetLevel (l : Nat) (s : LedState) : LedState :=
  let s := { s with isDimmable := true, level := l }
  if s.state then ledSetState true s else s

/-- LED::flip — toggle the output state. -/
def ledFlip (s : LedState) : LedState :=
  if s.state then ledSetState false s else ledSetState true s

/-- LED::clearPulse. -/
def ledClearPulse (s : LedState) : LedState :=
  { s with pulseCount := 0, pulseMax := 0, pulseLow := 0, pulseHigh := 0,
           pulseDuration := 0, pulseUp := true, pulsing := false }

/-- LED::clearBlink. -/
def ledClearBlink (s : LedState) : LedState :=
  { s with blinkCount := 0, blinkMax := 0, lastBlinkTime := 0,
           blinkDelay := 0, blinking := false }

/-- LED::turnOff — cancel both animations and drive the output LOW. -/
def ledTurnOff (s : LedState) : LedState :=
  ledSetState false (ledClearPulse (ledClearBlink s))

/-- LED::initPulse — cancel prior animations, store the ramp parameters
(delay clamped to at least 2 before halving), and apply the first frame. -/
def ledInitPulse (now pDelay count low high : Nat) (s : LedState) : LedState :=
  let s := ledClearPulse (ledClearBlink s)
  let safePDelay := if pDelay < 2 then 2 else pDelay
  let s := { s with pulseLow := low, pulseHigh := high, pulseMax := count,
                    pulseDuration := safePDelay / 2, lastPulseTime := now,
                    pulsing := true }
  ledSetState true (ledSetLevel low s)

/-- LED::initFade — one-way ramp: pulseMax 0 marks the one-shot fade, the
duration is clamped to at least 1 and used unhalved, and the direction is
taken from the endpoints. -/
def ledInitFade (now duration startLevel endLevel : Nat) (s : LedState) : LedState :=
  let s := ledClearPulse (ledClearBlink s)
  let s := { s with pulseLow := startLevel, pulseHigh := endLevel, pulseMax := 0,
                    pulseDuration := if duration < 1 then 1 else duration,
                    lastPulseTime := now, pulsing := true,
                    pulseUp := startLevel < endLevel }
  ledSetState true (ledSetLevel startLevel s)

/-- LED::fadeOut — a no-op when the output is already LOW; otherwise fade
from the current level (or 255 when not dimmable) down to 0. -/
def ledFadeOut (now duration : Nat) (s : LedState) : LedState :=
  if s.state = false then s
  else
    let startLevel := if s.isDimmable ∧ 0 < s.level then s.level else 255
    ledInitFade now duration startLevel 0 s

/-- LED::fadeIn — fade from 0 up to the target level. -/
def ledFadeIn (now duration targetLevel : Nat) (s : LedState) : LedState :=
  ledInitFade now duration 0 targetLevel s

/-- The ascending interpolation expression of LED::runPulse with the C++
fixed-width arithmetic written out: range is a 16-bit unsigned int, the
product is a 32-bit unsigned long, and the result is truncated to a byte. -/
def pulseLevelUp (low high elapsed duration : Nat) : Nat :=
  let range := (((high : Int) - low) % 65536).toNat
  (low + range * elapsed % 4294967296 / duration) % 256

/-- The descending interpolation expression of LED::runPulse. -/
def pulseLevelDown (low high elapsed duration : Nat) : Nat :=
  let range := (((high : Int) - low) % 65536).toNat
  (((high : Int) - range * elapsed % 4294967296 / duration) % 256).toNat

/-- LED::runPulse — advance the pulse/fade ramp on one poll. -/
def runPulse (now : Nat) (s : LedState) : LedState :=
  if s.pulsing then
    let elapsed := now - s.lastPulseTime
    if s.pulseUp then
      if s.pulseDuration ≤ elapsed then
        let s := ledSetState true { s with level := s.pulseHigh }
        if s.pulseMax = 0 then ledClearPulse s
        else
          let s := { s with pulseUp := false, lastPulseTime := now }
          if s.pulseMax ≤ s.pulseCount ∧ 0 < s.pulseMax then
            ledSetState false (ledClearPulse s)
          else s
      else
        let desired := pulseLevelUp s.pulseLow s.pulseHigh elapsed s.pulseDuration
        let s := if s.level ≠ desired then ledSetState true { s with level := desired } else s
        if s.pulseMax ≤ s.pulseCount ∧ 0 < s.pulseMax then
          ledSetState false (ledClearPulse s)
        else s
    else
      if s.pulseDuration ≤ elapsed then
        if s.pulseMax = 0 then
          let s := ledSetState true { s with level := s.pulseLow }
          ledSetState false (ledClearPulse s)
        else
          let s := { s with lastPulseTime := now, pulseUp := true,
                            pulseCount := s.pulseCount + 1 }
          if s.pulseMax ≤ s.pulseCount ∧ 0 < s.pulseMax then
            ledSetState false (ledClearPulse s)
          else s
      else
        let desired := pulseLevelDown s.pulseLow s.pulseHigh elapsed s.pulseDuration
        let s := if s.level ≠ desired then ledSetState true { s with level := desired } else s
        if s.pulseMax ≤ s.pulseCount ∧ 0 < s.pulseMax then
          ledSetState false (ledClearPulse s)
        else s
  else s

/-- LED::initBlink — cancel any pulse, compute the exact flip budget for a
finite count from the current output state (odd/even adjustment), and store
the half-period (delay clamped to at least 1 before halving).  The count
parameter and blinkMax register are unsigned int (16-bit), so the budget
arithmetic wraps modulo 2^16: count*2 is 2*c % 65536 and count*2 - 1 is
(2*c + 65535) % 65536 on the 16-bit value c of the count argument. -/
def ledInitBlink (now bDelay count : Nat) (s : LedState) : LedState :=
  let s := ledClearPulse s
  let c := count % 65536
  let blinkMax :=
    if 0 < c then (if s.state then (2 * c + 65535) % 65536 else 2 * c % 65536) else 0
  let safeBDelay := if bDelay < 1 then 1 else bDelay
  { s with blinkCount := 0, blinkMax := blinkMax, blinkDelay := safeBDelay / 2,
           lastBlinkTime := now, blinking := true }

/-- LED::runBlink — toggle when the half-period has elapsed; on reaching the
flip budget of a finite blink, turn the LED off and stop.  Also returns the
number of flip() calls performed (0 or 1) so runs can count toggles. -/
def runBlink (now : Nat) (s : LedState) : LedState × Nat :=
  if s.blinking then
    if s.blinkDelay ≤ now - s.lastBlinkTime then
      let s := ledFlip { s with lastBlinkTime := now, blinkCount := s.blinkCount + 1 }
      if s.blinkMax ≤ s.blinkCount ∧ 0 < s.blinkMax then
        ({ ledTurnOff s with blinking := false }, 1)
      else (s, 1)
    else (s, 0)
  else (s, 0)

/-- LED::update — runBlink then runPulse, keeping the toggle count. -/
def ledUpdate (now : Nat) (s : LedState) : LedState × Nat :=
  let p := runBlink now s
  (runPulse now p.1, p.2)

/-- Drive LED::update over a list of poll times, summing the toggles. -/
def blinkRun (s : LedState) : List Nat → LedState × Nat
  | [] => (s, 0)
  | t :: ts =>
    let p := ledUpdate t s
    let q := blinkRun p.1 ts
    (q.1, p.2 + q.2)

/-- The generous poll schedule that fires the blink engine on every poll:
k polls spaced exactly one half-period apart starting from the stored
timestamp. -/
def blinkSched (L D : Nat) : Nat → List Nat
  | 0 => []
  | k + 1 => (L + D) :: blinkSched (L + D) D k

/-! ## C10 — fadeOut on an LED that is already off -/

/-- C10: calling fadeOut on an LED whose output state is LOW is a no-op:
no fade is started and the state (output level, on/off state, animation
registers) is returned unchanged. -/
theorem fadeOut_noop_when_off (now duration : Nat) (s : LedState)
    (h : s.state = false) : ledFadeOut now duration s = s := by
  simp [ledFadeOut, h]

/-- Witness for fadeOut_noop_when_off at a concrete off LED. -/
theorem fadeOut_noop_when_off_witness :
    initLedState.state = false ∧ ledFadeOut 5 100 initLedState = initLedState :=
  ⟨by decide, fadeOut_noop_when_off 5 100 initLedState (by decide)⟩

/-! ## C8 — re-initializing an already-initialized peripheral -/

/-- C8 counterexample: the claim says a second init halts the system; in the
code both Button::init and AnalogSensor::init print a warning and return,
leaving the state untouched — the warn-and-ignore outcome, not the halt. -/
theorem reinit_not_fatal_counterexample :
    (buttonInit 6 0 false ((buttonInit 5 0 false initBtnState).1)).2
        = Outcome.warnedIgnored
    ∧ (analogInit 7 ((analogInit 3 initAnalogState).1)).2 = Outcome.warnedIgnored
    ∧ Outcome.warnedIgnored ≠ Outcome.halted := by decide

/-- C8 amended: re-initializing an already-initialized Button or AnalogSensor
is reported through the diagnostic channel as a warning and the call is
ignored: the peripheral state is returned unchanged and execution
continues (no halt). -/
theorem reinit_warned_and_ignored (s : BtnState) (p m : Nat) (r : Bool)
    (t : AnalogState) (q : Nat) (hb : s.initDone = true) (ha : t.initDone = true) :
    buttonInit p m r s = (s, Outcome.warnedIgnored)
    ∧ analogInit q t = (t, Outcome.warnedIgnored) := by
  constructor
  · simp [buttonInit, hb]
  · simp [analogInit, ha]

/-- Witness for reinit_warned_and_ignored on concretely initialized
peripherals. -/
theorem reinit_warned_and_ignored_witness :
    buttonInit 6 0 false ((buttonInit 5 0 false initBtnState).1)
        = ((buttonInit 5 0 false initBtnState).1, Outcome.warnedIgnored)
    ∧ analogInit 7 ((analogInit 3 initAnalogState).1)
        = ((analogInit 3 initAnalogState).1, Outcome.warnedIgnored) :=
  reinit_warned_and_ignored _ 6 0 false _ 7 (by decide) (by decide)

/-! ## C9 — degenerate delay/duration clamping -/

/-- setState does not touch the pulse duration register. -/
theorem ledSetState_pulseDuration (b : Bool) (s : LedState) :
    (ledSetState b s).pulseDuration = s.pulseDuration := rfl

/-- setLevel does not touch the pulse duration register. -/
theorem ledSetLevel_pulseDuration (l : Nat) (s : LedState) :
    (ledSetLevel l s).pulseDuration = s.pulseDuration := by
  simp only [ledSetLevel, ledSetState]
  split <;> rfl

/-- C9 (code bug): initPulse and initFade do clamp their stored duration to
a positive value, but initBlink clamps the raw delay to 1 and then halves
it, storing blinkDelay = 0 for delays 0 and 1 — in contradiction with its
own guard comment, the LED then toggles on every single poll (two
consecutive polls at the same instant each perform a flip). -/
theorem degenerate_delay_guard_gap :
    (ledInitBlink 100 0 0 initLedState).blinkDelay = 0
    ∧ (ledInitBlink 0 1 5 initLedState).blinkDelay = 0
    ∧ (ledUpdate 100 (ledInitBlink 100 0 0 initLedState)).2 = 1
    ∧ (ledUpdate 100 (ledUpdate 100 (ledInitBlink 100 0 0 initLedState)).1).2 = 1
    ∧ (∀ now pDelay count low high s,
         1 ≤ (ledInitPulse now pDelay count low high s).pulseDuration)
    ∧ (∀ now duration a b s, 1 ≤ (ledInitFade now duration a b s).pulseDuration) := by
  refine ⟨by decide, by decide, by decide, by decide, ?_, ?_⟩
  · intro now pDelay count low high s
    simp only [ledInitPulse, ledSetState_pulseDuration, ledSetLevel_pulseDuration]
    split <;> omega
  · intro now duration a b s
    simp only [ledInitFade, ledSetState_pulseDuration, ledSetLevel_pulseDuration]
    split <;> omega

/-! ## C4 — what a pulse leaves behind when it completes -/

/-- C4 counterexample: a pulse with count 1 (delay 10, low 10, high 20) is
driven through its ascending and descending half-periods; at the completing
poll the engine clears the pulse and forces the output LOW — the finite
pulse does not leave the output at the level the ramp ended on. -/
theorem pulse_finite_forces_off_counterexample :
    (runPulse 10 (runPulse 5 (ledInitPulse 0 10 1 10 20 initLedState))).state = false
    ∧ (runPulse 10 (runPulse 5 (ledInitPulse 0 10 1 10 20 initLedState))).pulsing
        = false := by decide

/-- C4 amended: when a finite pulse completes its last cycle (the
descending leg that raises the cycle count to the repeat count), the engine
clears the pulse and forces the output off; a pulse started with count 0
(documented as infinite) instead stops at the top of its first ascending
ramp and leaves the output on at the high level. -/
theorem pulse_completion (s : LedState) (now : Nat) (hp : s.pulsing = true) :
    (s.pulseUp = false → 0 < s.pulseMax → s.pulseMax ≤ s.pulseCount + 1 →
       s.pulseDuration ≤ now - s.lastPulseTime →
       (runPulse now s).state = false ∧ (runPulse now s).pulsing = false)
    ∧ (s.pulseUp = true → s.pulseMax = 0 →
       s.pulseDuration ≤ now - s.lastPulseTime →
       (runPulse now s).state = true ∧ (runPulse now s).level = s.pulseHigh
         ∧ (runPulse now s).pulsing = false) := by
  constructor
  · intro hup hmax hlast helap
    have hne : ¬ s.pulseMax = 0 := by omega
    simp [runPulse, hp, hup, helap, hne, hmax, hlast, ledSetState, ledClearPulse]
  · intro hup hmax helap
    simp [runPulse, hp, hup, helap, hmax, ledSetState, ledClearPulse]

/-- Witness for pulse_completion: the finite branch on the concrete count-1
pulse above, and the count-0 branch on the same ramp. -/
theorem pulse_completion_witness :
    ((runPulse 10 (runPulse 5 (ledInitPulse 0 10 1 10 20 initLedState))).state = false
      ∧ (runPulse 10 (runPulse 5 (ledInitPulse 0 10 1 10 20 initLedState))).pulsing = false)
    ∧ ((runPulse 5 (ledInitPulse 0 10 0 10 20 initLedState)).state = true
      ∧ (runPulse 5 (ledInitPulse 0 10 0 10 20 initLedState)).level
          = (ledInitPulse 0 10 0 10 20 initLedState).pulseHigh
      ∧ (runPulse 5 (ledInitPulse 0 10 0 10 20 initLedState)).pulsing = false) :=
  ⟨(pulse_completion (runPulse 5 (ledInitPulse 0 10 1 10 20 initLedState)) 10
      (by decide)).1 (by decide) (by decide) (by decide) (by decide),
   (pulse_completion (ledInitPulse 0 10 0 10 20 initLedState) 5
      (by decide)).2 (by decide) (by decide) (by decide)⟩


/-! ## Interval scheduler lemmas -/

/-- The slot value left behind when an active slot fires and its callback
does not mutate the table: timestamp refreshed, then a finite count
decremented with deactivation on reaching zero. -/
def firedSlot (now : Nat) (s : Slot) : Slot :=
  let s1 : Slot := { s with lastRun := now }
  if 0 < s1.count ∧ s1.cb ≠ none then
    { s1 with count := if s1.count - 1 = 0 then -1 else s1.count - 1 }
  else s1

theorem getElem?_lt_length {tbl : List Slot} {i : Nat} {s : Slot}
    (h : tbl[i]? = some s) : i < tbl.length := by
  by_contra hc
  rw [List.getElem?_eq_none (by omega)] at h
  cases h

/-- An out-of-range index is a no-op. -/
theorem intervalStep_oob {now : Nat} {tbl : List Slot} {i : Nat}
    (h : tbl[i]? = none) : intervalStep now tbl i = (tbl, []) := by
  simp only [intervalStep, h]

/-- A null callback pointer is a no-op. -/
theorem intervalStep_nocb {now : Nat} {tbl : List Slot} {i : Nat} {s : Slot}
    (hs : tbl[i]? = some s) (hc : s.cb = none) :
    intervalStep now tbl i = (tbl, []) := by
  simp only [intervalStep, hs, hc]

/-- An inactive slot (count -1) is a no-op: a deactivated one-shot never
fires again. -/
theorem intervalStep_inactive {now : Nat} {tbl : List Slot} {i : Nat} {s : Slot}
    (hs : tbl[i]? = some s) (hc : s.count = -1) :
    intervalStep now tbl i = (tbl, []) := by
  cases hcb : s.cb with
  | none => simp only [intervalStep, hs, hcb]
  | some c =>
    simp only [intervalStep, hs, hcb]
    rw [if_neg]
    intro hcond
    have := hcond.1
    omega

/-- Before the period has elapsed nothing happens. -/
theorem intervalStep_before {now : Nat} {tbl : List Slot} {i : Nat} {s : Slot}
    (hs : tbl[i]? = some s) (ht : now - s.lastRun < s.wait) :
    intervalStep now tbl i = (tbl, []) := by
  cases hcb : s.cb with
  | none => simp only [intervalStep, hs, hcb]
  | some c =>
    simp only [intervalStep, hs, hcb]
    by_cases h1 : 0 ≤ s.count ∧ s.paused = false
    · rw [if_pos h1, if_neg (by omega)]
    · rw [if_neg h1]

/-- Full characterization of processing a slot whose callback leaves the
table alone: when due it emits one event and only rewrites its own slot
with the fired bookkeeping, otherwise it is a no-op. -/
theorem intervalStep_inert_eq {now : Nat} {tbl : List Slot} {i : Nat} {s : Slot} {c : Cb}
    (hs : tbl[i]? = some s) (hcb : s.cb = some c) (hact : c.act = CbAct.inert) :
    intervalStep now tbl i =
      if 0 ≤ s.count ∧ s.paused = false ∧ s.wait ≤ now - s.lastRun then
        (tbl.set i (firedSlot now s), [⟨i, c.id, s.msg⟩])
      else (tbl, []) := by
  have hlen : i < tbl.length := getElem?_lt_length hs
  have hre : (tbl.set i { s with lastRun := now })[i]? = some { s with lastRun := now } :=
    List.getElem?_set_eq_of_lt _ (by simpa using hlen)
  simp only [intervalStep, hs, hcb, hact]
  by_cases h1 : 0 ≤ s.count ∧ s.paused = false
  · by_cases h2 : s.wait ≤ now - s.lastRun
    · rw [if_pos h1, if_pos h2, if_pos ⟨h1.1, h1.2, h2⟩]
      simp only [applyAct, setLastRun, hs, hre, firedSlot]
      split
      · rw [List.set_set]
      · rfl
    · rw [if_pos h1, if_neg h2, if_neg (by tauto)]
  · rw [if_neg h1, if_neg (by tauto)]

/-- Full characterization of processing a due slot whose callback clears
the slot itself: the reentrant clear wins — the slot comes out inactive
with its callback pointer gone (only the timestamp refresh lands on top),
the count bookkeeping is skipped, and exactly one event is emitted. -/
theorem intervalStep_selfclear_eq {now : Nat} {tbl : List Slot} {i : Nat} {s : Slot} {c : Cb}
    (hs : tbl[i]? = some s) (hcb : s.cb = some c) (hact : c.act = CbAct.clearSlot i)
    (hcnt : 0 ≤ s.count) (hp : s.paused = false) (ht : s.wait ≤ now - s.lastRun) :
    intervalStep now tbl i =
      (tbl.set i { clearedSlot with lastRun := now }, [⟨i, c.id, s.msg⟩]) := by
  have hlen : i < tbl.length := getElem?_lt_length hs
  have h1 : (tbl.set i clearedSlot)[i]? = some clearedSlot :=
    List.getElem?_set_eq_of_lt _ (by simpa using hlen)
  have h2 : ((tbl.set i clearedSlot).set i { clearedSlot with lastRun := now })[i]?
      = some { clearedSlot with lastRun := now } :=
    List.getElem?_set_eq_of_lt _ (by simpa using hlen)
  simp only [intervalStep, hs, hcb, hact]
  rw [if_pos ⟨hcnt, hp⟩, if_pos ht]
  simp only [applyAct, intervalClear, if_pos hlen, setLastRun, h1, h2]
  rw [if_neg, List.set_set]
  intro hcond
  have h3 := hcond.1
  have h4 : clearedSlot.count = -1 := rfl
  omega

/-- Boolean check that a callback slot entry cannot mutate the scheduler. -/
def inertCb (o : Option Cb) : Bool :=
  match o with
  | none => true
  | some c => c.act == CbAct.inert

/-- Every slot of the table holds only inert callbacks (Boolean form). -/
def allInertB (tbl : List Slot) : Bool := tbl.all fun sl => inertCb sl.cb

/-- Every slot other than i holds only inert callbacks (Boolean form). -/
def inertOtherB (i : Nat) (tbl : List Slot) : Bool :=
  (List.range tbl.length).all fun j =>
    decide (j = i) ||
      (match tbl[j]? with
       | none => true
       | some sl => inertCb sl.cb)

/-- Propositional form of allInertB used in the inductions. -/
def AllInertP (tbl : List Slot) : Prop :=
  ∀ (j : Nat) (sl : Slot) (c : Cb), tbl[j]? = some sl → sl.cb = some c → c.act = CbAct.inert

/-- Propositional form of inertOtherB. -/
def InertExceptP (i : Nat) (tbl : List Slot) : Prop :=
  ∀ (j : Nat) (sl : Slot) (c : Cb), j ≠ i → tbl[j]? = some sl → sl.cb = some c →
    c.act = CbAct.inert

theorem allInertB_to_P {tbl : List Slot} (h : allInertB tbl = true) : AllInertP tbl := by
  intro j sl c hj hc
  have hm := List.all_eq_true.mp h sl (List.getElem?_mem hj)
  rw [hc] at hm
  simpa [inertCb] using hm

theorem inertOtherB_to_P {i : Nat} {tbl : List Slot} (h : inertOtherB i tbl = true) :
    InertExceptP i tbl := by
  intro j sl c hne hj hc
  have hjlen : j < tbl.length := getElem?_lt_length hj
  have hm := List.all_eq_true.mp h j (List.mem_range.mpr hjlen)
  simp only [hj, hc] at hm
  simpa [hne, inertCb] using hm

theorem allInertP_set {tbl : List Slot} {k : Nat} {x : Slot}
    (h : AllInertP tbl) (hx : ∀ c, x.cb = some c → c.act = CbAct.inert) :
    AllInertP (tbl.set k x) := by
  intro j sl c hj hc
  by_cases hjk : j = k
  · subst hjk
    rcases Nat.lt_or_ge j tbl.length with hlt | hge
    · rw [List.getElem?_set_eq_of_lt _ (by simpa using hlt)] at hj
      cases hj
      exact hx c hc
    · rw [List.getElem?_eq_none (by simpa using hge)] at hj
      cases hj
  · rw [List.getElem?_set_ne (by omega)] at hj
    exact h j sl c hj hc

theorem inertExceptP_set {i : Nat} {tbl : List Slot} {k : Nat} {x : Slot}
    (h : InertExceptP i tbl) (hx : k ≠ i → ∀ c, x.cb = some c → c.act = CbAct.inert) :
    InertExceptP i (tbl.set k x) := by
  intro j sl c hne hj hc
  by_cases hjk : j = k
  · subst hjk
    rcases Nat.lt_or_ge j tbl.length with hlt | hge
    · rw [List.getElem?_set_eq_of_lt _ (by simpa using hlt)] at hj
      cases hj
      exact hx hne c hc
    · rw [List.getElem?_eq_none (by simpa using hge)] at hj
      cases hj
  · rw [List.getElem?_set_ne (by omega)] at hj
    exact h j sl c hne hj hc

/-- The fired bookkeeping never touches the callback pointer. -/
theorem firedSlot_cb (now : Nat) (s : Slot) : (firedSlot now s).cb = s.cb := by
  simp only [firedSlot]
  split <;> rfl

/-- Processing a slot with an inert callback leaves every other table entry
untouched. -/
theorem intervalStep_inert_other {now : Nat} {tbl : List Slot} {i k : Nat}
    (hin : ∀ sl c, tbl[i]? = some sl → sl.cb = some c → c.act = CbAct.inert)
    (hk : k ≠ i) :
    (intervalStep now tbl i).1[k]? = tbl[k]? := by
  cases hs : tbl[i]? with
  | none => rw [intervalStep_oob hs]
  | some s =>
    cases hcb : s.cb with
    | none => rw [intervalStep_nocb hs hcb]
    | some c =>
      rw [intervalStep_inert_eq hs hcb (hin s c hs hcb)]
      split
      · exact List.getElem?_set_ne (by omega)
      · rfl

/-- Every event emitted while processing slot i names slot i. -/
theorem intervalStep_events_slot {now : Nat} {tbl : List Slot} {i : Nat} :
    ∀ e ∈ (intervalStep now tbl i).2, e.slot = i := by
  intro e he
  cases hs : tbl[i]? with
  | none => rw [intervalStep_oob hs] at he; cases he
  | some s =>
    cases hcb : s.cb with
    | none => rw [intervalStep_nocb hs hcb] at he; cases he
    | some c =>
      simp only [intervalStep, hs, hcb] at he
      by_cases h1 : 0 ≤ s.count ∧ s.paused = false
      · rw [if_pos h1] at he
        by_cases h2 : s.wait ≤ now - s.lastRun
        · rw [if_pos h2] at he
          simp only [List.mem_singleton] at he
          rw [he]
        · rw [if_neg h2] at he; cases he
      · rw [if_neg h1] at he; cases he

/-- An inert processing step preserves table-wide inertness. -/
theorem allInertP_intervalStep {now : Nat} {tbl : List Slot} {i : Nat}
    (h : AllInertP tbl) : AllInertP (intervalStep now tbl i).1 := by
  cases hs : tbl[i]? with
  | none => rw [intervalStep_oob hs]; exact h
  | some s =>
    cases hcb : s.cb with
    | none => rw [intervalStep_nocb hs hcb]; exact h
    | some c =>
      rw [intervalStep_inert_eq hs hcb (h i s c hs hcb)]
      split
      · exact allInertP_set h (fun c' hc' => by
          rw [firedSlot_cb, hcb] at hc'
          cases hc'
          exact h i s c hs hcb)
      · exact h

/-- The fired bookkeeping on a one-shot (count 1) slot deactivates it. -/
theorem firedSlot_count_one {now : Nat} {s : Slot} {c : Cb}
    (hc : s.count = 1) (hcb : s.cb = some c) :
    firedSlot now s = { s with lastRun := now, count := -1 } := by
  simp [firedSlot, hcb, hc]

/-- Drive Interval::update over a list of poll times, concatenating the
fired events. -/
def intervalRun (tbl : List Slot) : List Nat → List Slot × List FireEvt
  | [] => (tbl, [])
  | t :: ts =>
    let p := intervalUpdate t tbl
    let q := intervalRun p.1 ts
    (q.1, p.2 ++ q.2)

/-- Scanning any index list over a table of inert callbacks: an inactive
slot i stays inactive and contributes no events; a one-shot (count 1)
slot i contributes at most one event, ending inactive if it fired and
still armed if it did not. -/
theorem scanFrom_oneshot (now i : Nat) :
    ∀ (idxs : List Nat) (tbl : List Slot), AllInertP tbl →
    ∀ s : Slot, tbl[i]? = some s →
    (s.count = -1 →
       AllInertP (scanFrom now tbl idxs).1
       ∧ (scanFrom now tbl idxs).2.countP (fun e => e.slot == i) = 0
       ∧ ∃ s' : Slot, (scanFrom now tbl idxs).1[i]? = some s' ∧ s'.count = -1)
    ∧ (s.count = 1 →
       AllInertP (scanFrom now tbl idxs).1
       ∧ ∃ s' : Slot, (scanFrom now tbl idxs).1[i]? = some s'
           ∧ (((scanFrom now tbl idxs).2.countP (fun e => e.slot == i) = 0
                 ∧ s'.count = 1)
              ∨ ((scanFrom now tbl idxs).2.countP (fun e => e.slot == i) ≤ 1
                 ∧ s'.count = -1))) := by
  intro idxs
  induction idxs with
  | nil =>
    intro tbl hAll s hs
    exact ⟨fun hc => ⟨hAll, by simp [scanFrom], ⟨s, hs, hc⟩⟩,
           fun hc => ⟨hAll, ⟨s, hs, Or.inl ⟨by simp [scanFrom], hc⟩⟩⟩⟩
  | cons j rest ih =>
    intro tbl hAll s hs
    by_cases hji : j = i
    · subst hji
      constructor
      · intro hc
        have hstep : intervalStep now tbl j = (tbl, []) := intervalStep_inactive hs hc
        have := (ih tbl hAll s hs).1 hc
        simpa [scanFrom, hstep] using this
      · intro hc
        cases hcb : s.cb with
        | none =>
          have hstep : intervalStep now tbl j = (tbl, []) := intervalStep_nocb hs hcb
          have := (ih tbl hAll s hs).2 hc
          simpa [scanFrom, hstep] using this
        | some c =>
          have hact : c.act = CbAct.inert := hAll j s c hs hcb
          have hstep := @intervalStep_inert_eq now tbl j s c hs hcb hact
          by_cases hfire : 0 ≤ s.count ∧ s.paused = false ∧ s.wait ≤ now - s.lastRun
          · rw [if_pos hfire] at hstep
            have hlen : j < tbl.length := getElem?_lt_length hs
            have hset : (tbl.set j (firedSlot now s))[j]? = some (firedSlot now s) :=
              List.getElem?_set_eq_of_lt _ (by simpa using hlen)
            have hfc : firedSlot now s = { s with lastRun := now, count := -1 } :=
              firedSlot_count_one hc hcb
            have hAll' : AllInertP (tbl.set j (firedSlot now s)) :=
              allInertP_set hAll (fun c' hc' => by
                rw [firedSlot_cb, hcb] at hc'
                cases hc'
                exact hact)
            have hcnt' : (firedSlot now s).count = -1 := by rw [hfc]
            have hrest := ((ih (tbl.set j (firedSlot now s)) hAll'
                (firedSlot now s) hset).1 hcnt')
            refine ⟨by simpa [scanFrom, hstep] using hrest.1, ?_⟩
            obtain ⟨s', hs', hs'c⟩ := hrest.2.2
            refine ⟨s', by simpa [scanFrom, hstep] using hs', Or.inr ⟨?_, hs'c⟩⟩
            have hz := hrest.2.1
            simp [scanFrom, hstep, List.countP_append, hz]
          · rw [if_neg hfire] at hstep
            have := (ih tbl hAll s hs).2 hc
            simpa [scanFrom, hstep] using this
    · have hother : (intervalStep now tbl j).1[i]? = tbl[i]? :=
        intervalStep_inert_other (fun sl c h1 h2 => hAll j sl c h1 h2) (fun h => hji h.symm)
      have hAll' : AllInertP (intervalStep now tbl j).1 := allInertP_intervalStep hAll
      have hzero : (intervalStep now tbl j).2.countP (fun e => e.slot == i) = 0 := by
        rw [List.countP_eq_zero]
        intro e he
        have := intervalStep_events_slot e he
        simp [this, hji]
      have hih := ih (intervalStep now tbl j).1 hAll' s (hother.trans hs)
      constructor
      · intro hc
        have h1 := hih.1 hc
        refine ⟨by simpa [scanFrom] using h1.1, ?_, ?_⟩
        · simp [scanFrom, List.countP_append, hzero, h1.2.1]
        · obtain ⟨s', hs', hc'⟩ := h1.2.2
          exact ⟨s', by simpa [scanFrom] using hs', hc'⟩
      · intro hc
        have h1 := hih.2 hc
        refine ⟨by simpa [scanFrom] using h1.1, ?_⟩
        obtain ⟨s', hs', hc'⟩ := h1.2
        refine ⟨s', by simpa [scanFrom] using hs', ?_⟩
        rcases hc' with ⟨h2, h3⟩ | ⟨h2, h3⟩
        · exact Or.inl ⟨by simp [scanFrom, List.countP_append, hzero, h2], h3⟩
        · exact Or.inr ⟨by simp [scanFrom, List.countP_append, hzero]; omega, h3⟩

/-- Across any sequence of update scans over a table of inert callbacks, a
one-shot slot fires at most once, and an inactive slot never fires. -/
theorem intervalRun_oneshot (i : Nat) :
    ∀ (ts : List Nat) (tbl : List Slot), AllInertP tbl →
    ∀ s : Slot, tbl[i]? = some s →
    (s.count = -1 →
       (intervalRun tbl ts).2.countP (fun e => e.slot == i) = 0)
    ∧ (s.count = 1 →
       (intervalRun tbl ts).2.countP (fun e => e.slot == i) ≤ 1) := by
  intro ts
  induction ts with
  | nil => intro tbl hAll s hs; exact ⟨fun _ => by simp [intervalRun], fun _ => by simp [intervalRun]⟩
  | cons t rest ih =>
    intro tbl hAll s hs
    have hscan := scanFrom_oneshot t i (List.range tbl.length) tbl hAll s hs
    constructor
    · intro hc
      have h1 := hscan.1 hc
      obtain ⟨s', hs', hc'⟩ := h1.2.2
      have h2 := (ih (intervalUpdate t tbl).1 h1.1 s' hs').1 hc'
      have hz := h1.2.1
      simp only [intervalRun, intervalUpdate, List.countP_append] at h2 hz ⊢
      omega
    · intro hc
      have h1 := hscan.2 hc
      obtain ⟨s', hs', hc'⟩ := h1.2
      rcases hc' with ⟨h2, h3⟩ | ⟨h2, h3⟩
      · have h4 := (ih (intervalUpdate t tbl).1 h1.1 s' hs').2 h3
        simp only [intervalRun, intervalUpdate, List.countP_append] at h2 h4 ⊢
        omega
      · have h4 := (ih (intervalUpdate t tbl).1 h1.1 s' hs').1 h3
        simp only [intervalRun, intervalUpdate, List.countP_append] at h2 h4 ⊢
        omega

/-- findSlot scans from the front: the first index holding count -1 wins. -/
theorem findSlotAux_least :
    ∀ (l : List Slot) (base i : Nat) (s : Slot),
    l[i]? = some s → s.count = -1 →
    (∀ (j : Nat) (s' : Slot), j < i → l[j]? = some s' → s'.count ≠ -1) →
    findSlotAux l base = base + i := by
  intro l
  induction l with
  | nil => intro base i s hi _ _; simp at hi
  | cons hd tl ih =>
    intro base i s hi hc hmin
    cases i with
    | zero =>
      simp only [List.getElem?_cons_zero, Option.some.injEq] at hi
      subst hi
      simp [findSlotAux, hc]
    | succ n =>
      have hhd : hd.count ≠ -1 := hmin 0 hd (Nat.succ_pos n) (by simp)
      simp only [List.getElem?_cons_succ] at hi
      simp only [findSlotAux, if_neg hhd]
      rw [ih (base + 1) n s hi hc
        (fun j s' hj hj2 => hmin (j + 1) s' (by omega) (by simpa using hj2))]
      omega

/-! ## C3 — one-shot timers and deterministic slot allocation -/

/-- C3: a timer slot with count 1 does nothing while the elapsed time since
its last-fire timestamp is below the period; on the first update where it
reaches the period it fires exactly one callback invocation and is
deactivated on the spot (count -1); a deactivated slot never fires on any
later scan (at most one firing over any run of updates); findSlot always
returns the lowest-index slot whose count is -1, and add allocates exactly
that slot, fully re-initializing it. -/
theorem interval_oneshot_and_alloc :
    (∀ (now : Nat) (tbl : List Slot) (i : Nat) (s : Slot) (c : Cb),
       tbl[i]? = some s → s.cb = some c → c.act = CbAct.inert →
       s.count = 1 → s.paused = false → s.wait ≤ now - s.lastRun →
       intervalStep now tbl i
         = (tbl.set i { s with lastRun := now, count := -1 }, [⟨i, c.id, s.msg⟩]))
    ∧ (∀ (now : Nat) (tbl : List Slot) (i : Nat) (s : Slot),
       tbl[i]? = some s → now - s.lastRun < s.wait →
       intervalStep now tbl i = (tbl, []))
    ∧ (∀ (now : Nat) (tbl : List Slot) (i : Nat) (s : Slot),
       tbl[i]? = some s → s.count = -1 →
       intervalStep now tbl i = (tbl, []))
    ∧ (∀ (ts : List Nat) (tbl : List Slot) (i : Nat) (s : Slot),
       allInertB tbl = true → tbl[i]? = some s → s.count = 1 →
       (intervalRun tbl ts).2.countP (fun e => e.slot == i) ≤ 1)
    ∧ (∀ (tbl : List Slot) (i : Nat) (s : Slot),
       tbl[i]? = some s → s.count = -1 →
       (∀ (j : Nat) (s' : Slot), j < i → tbl[j]? = some s' → s'.count ≠ -1) →
       findSlot tbl = i)
    ∧ (∀ (now : Nat) (tbl : List Slot) (c : Cb) (w : Nat) (cnt : Int) (m : Nat),
       findSlot tbl < tbl.length →
       intervalAdd now tbl c w cnt m
         = (Outcome.proceeded, findSlot tbl,
            tbl.set (findSlot tbl)
              { cb := some c, wait := w, count := cnt, msg := m,
                lastRun := now, paused := false })) := by
  refine ⟨?_, ?_, ?_, ?_, ?_, ?_⟩
  · intro now tbl i s c hs hcb hact hc hp ht
    rw [intervalStep_inert_eq hs hcb hact, if_pos ⟨by omega, hp, ht⟩,
        firedSlot_count_one hc hcb]
  · intro now tbl i s hs ht
    exact intervalStep_before hs ht
  · intro now tbl i s hs hc
    exact intervalStep_inactive hs hc
  · intro ts tbl i s hAll hs hc
    exact ((intervalRun_oneshot i ts tbl (allInertB_to_P hAll) s hs).2 hc)
  · intro tbl i s hs hc hmin
    have := findSlotAux_least tbl 0 i s hs hc hmin
    simpa [findSlot] using this
  · intro now tbl c w cnt m h
    simp only [intervalAdd]
    rw [if_neg (by omega)]

/-- A concrete two-slot table for exercising the one-shot claims: slot 0
holds an armed one-shot (count 1, period 10), slot 1 is free. -/
def oneShotTbl : List Slot :=
  [{ cb := some { id := 7, act := CbAct.inert }, wait := 10, count := 1,
     msg := 42, lastRun := 0, paused := false }, clearedSlot]

/-- Witness for interval_oneshot_and_alloc on oneShotTbl: due fire at t = 10,
no fire at t = 5, inactive slot stays silent, at most one firing over three
polls, findSlot picks slot 1, and add re-initializes slot 1. -/
theorem interval_oneshot_and_alloc_witness :
    (intervalStep 10 oneShotTbl 0
       = (oneShotTbl.set 0
            { cb := some { id := 7, act := CbAct.inert }, wait := 10, count := -1,
              msg := 42, lastRun := 10, paused := false }, [⟨0, 7, 42⟩]))
    ∧ intervalStep 5 oneShotTbl 0 = (oneShotTbl, [])
    ∧ intervalStep 20 [clearedSlot] 0 = ([clearedSlot], [])
    ∧ (intervalRun oneShotTbl [10, 25, 40]).2.countP (fun e => e.slot == 0) ≤ 1
    ∧ findSlot oneShotTbl = 1
    ∧ intervalAdd 3 oneShotTbl { id := 9, act := CbAct.inert } 50 1 5
       = (Outcome.proceeded, 1,
          oneShotTbl.set 1
            { cb := some { id := 9, act := CbAct.inert }, wait := 50, count := 1,
              msg := 5, lastRun := 3, paused := false }) :=
  ⟨interval_oneshot_and_alloc.1 10 oneShotTbl 0
      { cb := some { id := 7, act := CbAct.inert }, wait := 10, count := 1,
        msg := 42, lastRun := 0, paused := false }
      { id := 7, act := CbAct.inert } (by decide) (by decide)
      (by decide) (by decide) (by decide) (by decide),
   interval_oneshot_and_alloc.2.1 5 oneShotTbl 0
      { cb := some { id := 7, act := CbAct.inert }, wait := 10, count := 1,
        msg := 42, lastRun := 0, paused := false } (by decide) (by decide),
   interval_oneshot_and_alloc.2.2.1 20 [clearedSlot] 0 clearedSlot (by decide) (by decide),
   interval_oneshot_and_alloc.2.2.2.1 [10, 25, 40] oneShotTbl 0
      { cb := some { id := 7, act := CbAct.inert }, wait := 10, count := 1,
        msg := 42, lastRun := 0, paused := false } (by decide) (by decide) (by decide),
   interval_oneshot_and_alloc.2.2.2.2.1 oneShotTbl 1 clearedSlot (by decide) (by decide)
      (by
        intro j s' hj hjs
        have hj0 : j = 0 := by omega
        subst hj0
        have hv : oneShotTbl[0]?
            = some { cb := some { id := 7, act := CbAct.inert }, wait := 10, count := 1,
                     msg := 42, lastRun := 0, paused := false } := rfl
        rw [hv] at hjs
        cases hjs
        decide),
   interval_oneshot_and_alloc.2.2.2.2.2 3 oneShotTbl { id := 9, act := CbAct.inert }
      50 1 5 (by decide)⟩

/-! ## C6 — clearing a slot from inside its own callback -/

/-- Split the scan index range around one index. -/
theorem range_split (n i : Nat) (h : i < n) :
    List.range n = List.range' 0 i ++ i :: List.range' (i + 1) (n - i - 1) := by
  obtain ⟨k, rfl⟩ : ∃ k, n = i + (k + 1) := ⟨n - i - 1, by omega⟩
  rw [List.range_eq_range']
  have h3 : i + (k + 1) - i - 1 = k := by omega
  rw [h3, show i + (k + 1) = k + 1 + i from by omega, ← List.range'_append 0 i (k + 1) 1]
  simp [List.range'_succ]

/-- A scan over concatenated index lists is the two scans in sequence. -/
theorem scanFrom_append (now : Nat) (l1 l2 : List Nat) :
    ∀ t : List Slot,
    scanFrom now t (l1 ++ l2)
      = ((scanFrom now (scanFrom now t l1).1 l2).1,
         (scanFrom now t l1).2 ++ (scanFrom now (scanFrom now t l1).1 l2).2) := by
  induction l1 with
  | nil => intro t; simp [scanFrom]
  | cons j rest ih => intro t; simp [scanFrom, ih, List.append_assoc]

/-- Scanning indices away from slot i on two tables that differ only at
slot i: the scans stay in lockstep — identical events, identical entries
away from i, and each table's entry i untouched. -/
theorem scanFrom_parallel (now i : Nat) :
    ∀ (idxs : List Nat), (∀ j ∈ idxs, j ≠ i) →
    ∀ (t t' : List Slot),
    (∀ k : Nat, k ≠ i → t[k]? = t'[k]?) → InertExceptP i t →
    (scanFrom now t idxs).2 = (scanFrom now t' idxs).2
    ∧ (∀ k : Nat, k ≠ i → (scanFrom now t idxs).1[k]? = (scanFrom now t' idxs).1[k]?)
    ∧ (scanFrom now t idxs).1[i]? = t[i]?
    ∧ (scanFrom now t' idxs).1[i]? = t'[i]?
    ∧ InertExceptP i (scanFrom now t idxs).1 := by
  intro idxs
  induction idxs with
  | nil =>
    intro _ t t' hagree hIE
    exact ⟨rfl, fun k hk => hagree k hk, rfl, rfl, hIE⟩
  | cons j rest ih =>
    intro hne t t' hagree hIE
    have hj : j ≠ i := hne j (List.mem_cons_self j rest)
    have hne' : ∀ m ∈ rest, m ≠ i := fun m hm => hne m (List.mem_cons_of_mem j hm)
    cases h : t[j]? with
    | none =>
      have h' : t'[j]? = none := (hagree j hj).symm.trans h
      have hstep : intervalStep now t j = (t, []) := intervalStep_oob h
      have hstep' : intervalStep now t' j = (t', []) := intervalStep_oob h'
      have := ih hne' t t' hagree hIE
      simpa [scanFrom, hstep, hstep'] using this
    | some sl =>
      have h' : t'[j]? = some sl := (hagree j hj).symm.trans h
      cases hcb : sl.cb with
      | none =>
        have hstep : intervalStep now t j = (t, []) := intervalStep_nocb h hcb
        have hstep' : intervalStep now t' j = (t', []) := intervalStep_nocb h' hcb
        have := ih hne' t t' hagree hIE
        simpa [scanFrom, hstep, hstep'] using this
      | some c =>
        have hact : c.act = CbAct.inert := hIE j sl c hj h hcb
        have hstep := @intervalStep_inert_eq now t j sl c h hcb hact
        have hstep' := @intervalStep_inert_eq now t' j sl c h' hcb hact
        by_cases hfire : 0 ≤ sl.count ∧ sl.paused = false ∧ sl.wait ≤ now - sl.lastRun
        · rw [if_pos hfire] at hstep hstep'
          have hlt : j < t.length := getElem?_lt_length h
          have hlt' : j < t'.length := getElem?_lt_length h'
          have hagree2 : ∀ k : Nat, k ≠ i →
              (t.set j (firedSlot now sl))[k]? = (t'.set j (firedSlot now sl))[k]? := by
            intro k hk
            by_cases hkj : k = j
            · subst hkj
              rw [List.getElem?_set_eq_of_lt _ (by simpa using hlt),
                  List.getElem?_set_eq_of_lt _ (by simpa using hlt')]
            · rw [List.getElem?_set_ne (by omega), List.getElem?_set_ne (by omega)]
              exact hagree k hk
          have hIE2 : InertExceptP i (t.set j (firedSlot now sl)) :=
            inertExceptP_set hIE (fun _ c' hc' => by
              rw [firedSlot_cb, hcb] at hc'
              cases hc'
              exact hact)
          have := ih hne' (t.set j (firedSlot now sl)) (t'.set j (firedSlot now sl))
            hagree2 hIE2
          refine ⟨?_, ?_, ?_, ?_, ?_⟩
          · simpa [scanFrom, hstep, hstep'] using this.1
          · intro k hk
            simpa [scanFrom, hstep, hstep'] using this.2.1 k hk
          · have h3 := this.2.2.1
            rw [List.getElem?_set_ne (by omega)] at h3
            simpa [scanFrom, hstep] using h3
          · have h3 := this.2.2.2.1
            rw [List.getElem?_set_ne (by omega)] at h3
            simpa [scanFrom, hstep'] using h3
          · simpa [scanFrom, hstep] using this.2.2.2.2
        · rw [if_neg hfire] at hstep hstep'
          have := ih hne' t t' hagree hIE
          simpa [scanFrom, hstep, hstep'] using this

/-- Unfold one scan step given the step's result. -/
theorem scanFrom_cons_eq (now : Nat) (t : List Slot) (j : Nat) (rest : List Nat)
    {t2 : List Slot} {evs : List FireEvt}
    (h : intervalStep now t j = (t2, evs)) :
    scanFrom now t (j :: rest)
      = ((scanFrom now t2 rest).1, evs ++ (scanFrom now t2 rest).2) := by
  simp [scanFrom, h]

/-- C6: when the callback fired for slot i clears slot i, after update
returns slot i is inactive (count -1, callback pointer cleared) — the
post-callback bookkeeping neither decrements its count nor reactivates
it — and the rest of the scan proceeds exactly as it would had the callback
left the table alone: identical events and identical final entries at every
other slot. -/
theorem interval_reentrant_selfclear
    (now : Nat) (tbl : List Slot) (i : Nat) (s : Slot) (cid : Nat)
    (hs : tbl[i]? = some s)
    (hcb : s.cb = some { id := cid, act := CbAct.clearSlot i })
    (hcnt : 0 ≤ s.count) (hp : s.paused = false) (ht : s.wait ≤ now - s.lastRun)
    (hoth : inertOtherB i tbl = true) :
    (∃ s' : Slot, (intervalUpdate now tbl).1[i]? = some s' ∧ s'.count = -1 ∧ s'.cb = none)
    ∧ (∀ k : Nat, k ≠ i →
         (intervalUpdate now tbl).1[k]?
           = (intervalUpdate now
                (tbl.set i { s with cb := some { id := cid, act := CbAct.inert } })).1[k]?)
    ∧ (intervalUpdate now tbl).2
        = (intervalUpdate now
             (tbl.set i { s with cb := some { id := cid, act := CbAct.inert } })).2 := by
  have hlen : i < tbl.length := getElem?_lt_length hs
  have hIE : InertExceptP i tbl := inertOtherB_to_P hoth
  set sI : Slot := { s with cb := some { id := cid, act := CbAct.inert } } with hsI
  set tbl' : List Slot := tbl.set i sI with htbl'
  set suf : List Nat := List.range' (i + 1) (tbl.length - i - 1) with hsuf
  have hlen' : tbl'.length = tbl.length := by rw [htbl']; simp
  have hr : List.range tbl.length = List.range' 0 i ++ i :: suf := range_split _ _ hlen
  have hr' : List.range tbl'.length = List.range' 0 i ++ i :: suf := by rw [hlen', hr]
  have hpre_ne : ∀ j ∈ List.range' 0 i, j ≠ i := by
    intro j hj
    have := List.mem_range'_1.mp hj
    omega
  have hsuf_ne : ∀ j ∈ suf, j ≠ i := by
    intro j hj
    rw [hsuf] at hj
    have := List.mem_range'_1.mp hj
    omega
  have hagree0 : ∀ k : Nat, k ≠ i → tbl[k]? = tbl'[k]? := by
    intro k hk
    rw [htbl', List.getElem?_set_ne (by omega)]
  have hP := scanFrom_parallel now i (List.range' 0 i) hpre_ne tbl tbl' hagree0 hIE
  have hPi : (scanFrom now tbl (List.range' 0 i)).1[i]? = some s := hP.2.2.1.trans hs
  have hP'i : (scanFrom now tbl' (List.range' 0 i)).1[i]? = some sI := by
    rw [hP.2.2.2.1, htbl']
    exact List.getElem?_set_eq_of_lt _ (by simpa using hlen)
  have hstep : intervalStep now (scanFrom now tbl (List.range' 0 i)).1 i
      = ((scanFrom now tbl (List.range' 0 i)).1.set i { clearedSlot with lastRun := now },
         [⟨i, cid, s.msg⟩]) :=
    intervalStep_selfclear_eq hPi hcb rfl hcnt hp ht
  have hstep' : intervalStep now (scanFrom now tbl' (List.range' 0 i)).1 i
      = ((scanFrom now tbl' (List.range' 0 i)).1.set i (firedSlot now sI),
         [⟨i, cid, sI.msg⟩]) := by
    rw [intervalStep_inert_eq hP'i rfl rfl, if_pos ⟨hcnt, hp, ht⟩]
  have hPlt : i < (scanFrom now tbl (List.range' 0 i)).1.length := getElem?_lt_length hPi
  have hP'lt : i < (scanFrom now tbl' (List.range' 0 i)).1.length := getElem?_lt_length hP'i
  have hagree2 : ∀ k : Nat, k ≠ i →
      ((scanFrom now tbl (List.range' 0 i)).1.set i { clearedSlot with lastRun := now })[k]?
        = ((scanFrom now tbl' (List.range' 0 i)).1.set i (firedSlot now sI))[k]? := by
    intro k hk
    rw [List.getElem?_set_ne (by omega), List.getElem?_set_ne (by omega)]
    exact hP.2.1 k hk
  have hIE2 : InertExceptP i
      ((scanFrom now tbl (List.range' 0 i)).1.set i { clearedSlot with lastRun := now }) :=
    inertExceptP_set hP.2.2.2.2 (fun _ c' hc' => by simp [clearedSlot] at hc')
  have hS := scanFrom_parallel now i suf hsuf_ne _ _ hagree2 hIE2
  have hupd : intervalUpdate now tbl
      = ((scanFrom now
            ((scanFrom now tbl (List.range' 0 i)).1.set i { clearedSlot with lastRun := now })
            suf).1,
         (scanFrom now tbl (List.range' 0 i)).2
           ++ (⟨i, cid, s.msg⟩
                :: (scanFrom now
                      ((scanFrom now tbl (List.range' 0 i)).1.set i
                        { clearedSlot with lastRun := now }) suf).2)) := by
    rw [intervalUpdate, hr, scanFrom_append, scanFrom_cons_eq now _ i suf hstep]
    rfl
  have hupd' : intervalUpdate now tbl'
      = ((scanFrom now
            ((scanFrom now tbl' (List.range' 0 i)).1.set i (firedSlot now sI)) suf).1,
         (scanFrom now tbl' (List.range' 0 i)).2
           ++ (⟨i, cid, sI.msg⟩
                :: (scanFrom now
                      ((scanFrom now tbl' (List.range' 0 i)).1.set i (firedSlot now sI))
                      suf).2)) := by
    rw [intervalUpdate, hr', scanFrom_append, scanFrom_cons_eq now _ i suf hstep']
    rfl
  refine ⟨?_, ?_, ?_⟩
  · refine ⟨{ clearedSlot with lastRun := now }, ?_, rfl, rfl⟩
    rw [hupd]
    have h3 := hS.2.2.1
    rw [List.getElem?_set_eq_of_lt _ (by simpa using hPlt)] at h3
    exact h3
  · intro k hk
    rw [hupd, hupd']
    exact hS.2.1 k hk
  · rw [hupd, hupd', hP.1, hS.1]

/-- A concrete table where slot 0's callback clears slot 0 and slot 1 holds
an inert infinite timer. -/
def selfClearTbl : List Slot :=
  [{ cb := some { id := 3, act := CbAct.clearSlot 0 }, wait := 5, count := 2,
     msg := 9, lastRun := 0, paused := false },
   { cb := some { id := 4, act := CbAct.inert }, wait := 7, count := 0,
     msg := 1, lastRun := 0, paused := false }]

/-- Witness for interval_reentrant_selfclear on selfClearTbl at t = 10. -/
theorem interval_reentrant_selfclear_witness :
    (∃ s' : Slot, (intervalUpdate 10 selfClearTbl).1[0]? = some s'
        ∧ s'.count = -1 ∧ s'.cb = none)
    ∧ (∀ k : Nat, k ≠ 0 →
         (intervalUpdate 10 selfClearTbl).1[k]?
           = (intervalUpdate 10
                (selfClearTbl.set 0
                   { cb := some { id := 3, act := CbAct.inert }, wait := 5, count := 2,
                     msg := 9, lastRun := 0, paused := false })).1[k]?)
    ∧ (intervalUpdate 10 selfClearTbl).2
        = (intervalUpdate 10
             (selfClearTbl.set 0
                { cb := some { id := 3, act := CbAct.inert }, wait := 5, count := 2,
                  msg := 9, lastRun := 0, paused := false })).2 :=
  interval_reentrant_selfclear 10 selfClearTbl 0
    { cb := some { id := 3, act := CbAct.clearSlot 0 }, wait := 5, count := 2,
      msg := 9, lastRun := 0, paused := false }
    3 (by decide) (by decide) (by decide) (by decide) (by decide) (by decide)

/-! ## C5 — finite blink parity and final OFF state -/

/-- An un-pulsing LED is untouched by runPulse. -/
theorem runPulse_inert {now : Nat} {s : LedState} (h : s.pulsing = false) :
    runPulse now s = s := by
  simp [runPulse, h]

/-- Invariant of a running finite blink: no pulse is active, and while
blinking the stored flip budget is the target with blinkCount recording the
flips performed so far; once blinking has stopped, exactly target flips
happened and the output is OFF. -/
def BlinkInv (target f : Nat) (s : LedState) : Prop :=
  s.pulsing = false
  ∧ (s.blinking = true → s.blinkMax = target ∧ s.blinkCount = f ∧ f < target)
  ∧ (s.blinking = false → f = target ∧ s.state = false)

/-- One poll preserves the blink invariant, counting the flip it performs. -/
theorem blinkInv_step (now target f : Nat) (s : LedState) (h : BlinkInv target f s) :
    BlinkInv target (f + (ledUpdate now s).2) (ledUpdate now s).1 := by
  obtain ⟨hpul, hrun, hstop⟩ := h
  cases hb : s.blinking with
  | false =>
    have h1 : ledUpdate now s = (s, 0) := by
      simp [ledUpdate, runBlink, hb, runPulse_inert hpul]
    rw [h1]
    exact ⟨hpul, fun hbt => absurd hbt (by simp [hb]), fun _ => hstop hb⟩
  | true =>
    obtain ⟨hmax, hcnt, hlt⟩ := hrun hb
    by_cases hfire : s.blinkDelay ≤ now - s.lastBlinkTime
    · by_cases hdone : s.blinkMax ≤ s.blinkCount + 1
      · have hdone1 : target ≤ s.blinkCount + 1 := by omega
        have hdone2 : 0 < target := by omega
        have h1 : (ledUpdate now s).2 = 1 ∧ (ledUpdate now s).1.blinking = false
            ∧ (ledUpdate now s).1.state = false ∧ (ledUpdate now s).1.pulsing = false := by
          by_cases hst : s.state
          all_goals
            simp [ledUpdate, runBlink, hb, hfire, ledFlip, ledSetState, ledTurnOff,
              ledClearPulse, ledClearBlink, hst, hmax, hdone1, hdone2, runPulse]
        refine ⟨h1.2.2.2, fun hbt => absurd hbt (by simp [h1.2.1]), fun _ => ?_⟩
        constructor
        · omega
        · exact h1.2.2.1
      · have hdone1 : ¬(target ≤ s.blinkCount + 1 ∧ 0 < target) := by
          intro hx
          omega
        have h1 : (ledUpdate now s).2 = 1 ∧ (ledUpdate now s).1.blinking = true
            ∧ (ledUpdate now s).1.blinkMax = s.blinkMax
            ∧ (ledUpdate now s).1.blinkCount = s.blinkCount + 1
            ∧ (ledUpdate now s).1.pulsing = s.pulsing := by
          by_cases hst : s.state
          all_goals
            simp [ledUpdate, runBlink, hb, hfire, ledFlip, ledSetState, hst, hmax, hdone1,
              runPulse, hpul]
        refine ⟨h1.2.2.2.2.trans hpul, fun _ => ⟨h1.2.2.1.trans hmax, ?_, by omega⟩,
          fun hbf => absurd hbf (by simp [h1.2.1])⟩
        rw [h1.2.2.2.1, hcnt, h1.1]
    · have h1 : ledUpdate now s = (s, 0) := by
        simp [ledUpdate, runBlink, hb, hfire, runPulse_inert hpul]
      rw [h1]
      exact ⟨hpul, fun _ => ⟨hmax, by simpa using hcnt, hlt⟩,
        fun hbf => absurd (hb.symm.trans hbf) (by simp)⟩

/-- The blink invariant is preserved along any poll sequence, accumulating
the performed flips. -/
theorem blinkRun_inv (target : Nat) :
    ∀ (ts : List Nat) (f : Nat) (s : LedState), BlinkInv target f s →
    BlinkInv target (f + (blinkRun s ts).2) (blinkRun s ts).1 := by
  intro ts
  induction ts with
  | nil => intro f s h; simpa [blinkRun] using h
  | cons t rest ih =>
    intro f s h
    have h1 := blinkInv_step t target f s h
    have h2 := ih (f + (ledUpdate t s).2) (ledUpdate t s).1 h1
    simpa [blinkRun, Nat.add_assoc] using h2

/-- A LED with neither animation running is untouched by polls. -/
theorem blinkRun_inertState :
    ∀ (ts : List Nat) (s : LedState), s.blinking = false → s.pulsing = false →
    blinkRun s ts = (s, 0) := by
  intro ts
  induction ts with
  | nil => intro s _ _; rfl
  | cons t rest ih =>
    intro s hb hp
    have h1 : ledUpdate t s = (s, 0) := by
      simp [ledUpdate, runBlink, hb, runPulse_inert hp]
    simp [blinkRun, h1, ih s hb hp]

/-- Starting a finite blink whose flip budget fits the 16-bit register
establishes the invariant with the parity-based flip budget. -/
theorem blinkInv_init (now d N : Nat) (s : LedState) (hN : 0 < N) (hw : 2 * N < 65536) :
    BlinkInv (if s.state = true then 2 * N - 1 else 2 * N) 0 (ledInitBlink now d N s) := by
  have hc : N % 65536 = N := Nat.mod_eq_of_lt (by omega)
  refine ⟨by simp [ledInitBlink, ledClearPulse], fun _ => ⟨?_, ?_, ?_⟩, fun hbf => ?_⟩
  · by_cases hst : s.state = true <;>
      simp [ledInitBlink, ledClearPulse, hst, hc, hN] <;> omega
  · simp [ledInitBlink, ledClearPulse]
  · by_cases hst : s.state = true <;> simp [hst] <;> omega
  · exact absurd hbf (by simp [ledInitBlink, ledClearPulse])

/-- On the generous schedule (polls spaced one half-period apart), a running
finite blink performs its remaining flips and stops. -/
theorem blink_completes (target : Nat) :
    ∀ (k f : Nat) (s : LedState), BlinkInv target f s → s.blinking = true →
    f + k = target →
    ((blinkRun s (blinkSched s.lastBlinkTime s.blinkDelay k)).1).blinking = false := by
  intro k
  induction k with
  | zero =>
    intro f s h hb hfk
    have := (h.2.1 hb).2.2
    omega
  | succ n ih =>
    intro f s h hb hfk
    obtain ⟨hpul, hrun, hstop⟩ := h
    obtain ⟨hmax, hcnt, hlt⟩ := hrun hb
    have hfe : s.blinkDelay ≤ (s.lastBlinkTime + s.blinkDelay) - s.lastBlinkTime := by omega
    have hinv1 := blinkInv_step (s.lastBlinkTime + s.blinkDelay) target f s
      ⟨hpul, fun _ => ⟨hmax, hcnt, hlt⟩, fun hbf => absurd (hb.symm.trans hbf) (by simp)⟩
    by_cases hdone : s.blinkMax ≤ s.blinkCount + 1
    · have hdone1 : target ≤ s.blinkCount + 1 := by omega
      have hdone2 : 0 < target := by omega
      have h1 : ((ledUpdate (s.lastBlinkTime + s.blinkDelay) s).1).blinking = false
          ∧ ((ledUpdate (s.lastBlinkTime + s.blinkDelay) s).1).pulsing = false := by
        by_cases hst : s.state
        all_goals
          simp [ledUpdate, runBlink, hb, hfe, ledFlip, ledSetState, ledTurnOff,
            ledClearPulse, ledClearBlink, hst, hmax, hdone1, hdone2, runPulse]
      simp only [blinkSched, blinkRun]
      rw [blinkRun_inertState _ _ h1.1 h1.2]
      exact h1.1
    · have hdone1 : ¬(target ≤ s.blinkCount + 1 ∧ 0 < target) := by
        intro hx
        omega
      have h1 : ((ledUpdate (s.lastBlinkTime + s.blinkDelay) s).1).blinking = true
          ∧ ((ledUpdate (s.lastBlinkTime + s.blinkDelay) s).1).lastBlinkTime
              = s.lastBlinkTime + s.blinkDelay
          ∧ ((ledUpdate (s.lastBlinkTime + s.blinkDelay) s).1).blinkDelay = s.blinkDelay
          ∧ (ledUpdate (s.lastBlinkTime + s.blinkDelay) s).2 = 1 := by
        by_cases hst : s.state
        all_goals
          simp [ledUpdate, runBlink, hb, hfe, ledFlip, ledSetState, hst, hmax, hdone1,
            runPulse, hpul]
      have hrec := ih (f + 1) (ledUpdate (s.lastBlinkTime + s.blinkDelay) s).1
        (by
          have := hinv1
          rw [h1.2.2.2] at this
          exact this)
        h1.1 (by omega)
      rw [h1.2.1, h1.2.2.1] at hrec
      simpa [blinkSched, blinkRun] using hrec

/-- Once the stored flip budget is the infinite sentinel 0, the blink never
stops: no poll sequence ever takes blinking back to false. -/
theorem blink_zero_budget_never_stops :
    ∀ (ts : List Nat) (s : LedState), s.blinkMax = 0 → s.blinking = true →
    s.pulsing = false →
    ((blinkRun s ts).1).blinking = true ∧ ((blinkRun s ts).1).blinkMax = 0
      ∧ ((blinkRun s ts).1).pulsing = false := by
  intro ts
  induction ts with
  | nil => intro s hm hb hp; exact ⟨hb, hm, hp⟩
  | cons t rest ih =>
    intro s hm hb hp
    by_cases hfire : s.blinkDelay ≤ t - s.lastBlinkTime
    · have h1 : ((ledUpdate t s).1).blinking = true ∧ ((ledUpdate t s).1).blinkMax = 0
          ∧ ((ledUpdate t s).1).pulsing = false := by
        by_cases hst : s.state
        all_goals
          simp [ledUpdate, runBlink, hb, hfire, hm, ledFlip, ledSetState, hst, runPulse, hp]
      have h2 := ih (ledUpdate t s).1 h1.2.1 h1.1 h1.2.2
      simpa [blinkRun] using h2
    · have h1 : ledUpdate t s = (s, 0) := by
        simp [ledUpdate, runBlink, hb, hfire, runPulse_inert hp]
      have h2 := ih s hm hb hp
      simpa [blinkRun, h1] using h2

/-- C5 counterexample: started from an OFF LED with count 32768, the
16-bit flip budget count*2 wraps to 0 — the infinite-blink sentinel — so
the blink never stops, and the claim that every finite-count blink performs
exactly 2N toggles and then stops in the OFF state is false. -/
theorem blink_wrap_counterexample :
    (ledInitBlink 0 10 32768 initLedState).blinkMax = 0
    ∧ (∀ ts : List Nat,
        ((blinkRun (ledInitBlink 0 10 32768 initLedState) ts).1).blinking = true) :=
  ⟨by decide,
   fun ts => (blink_zero_budget_never_stops ts (ledInitBlink 0 10 32768 initLedState)
     (by decide) (by decide) (by decide)).1⟩

/-- C5 amended: a blink with a finite count N whose flip budget fits the
16-bit register (2N < 65536) performs at most 2N toggles when the output
was OFF at start and 2N-1 when it was ON; if the blink has stopped, exactly
that many toggles happened and the output is in the OFF state; and on the
generous schedule of one poll per half-period the blink does stop. -/
theorem blink_finite_parity (now0 d N : Nat) (s0 : LedState) (hN : 0 < N)
    (hw : 2 * N < 65536) :
    (∀ ts : List Nat,
       (blinkRun (ledInitBlink now0 d N s0) ts).2
         ≤ (if s0.state = true then 2 * N - 1 else 2 * N)
       ∧ (((blinkRun (ledInitBlink now0 d N s0) ts).1).blinking = false →
            (blinkRun (ledInitBlink now0 d N s0) ts).2
              = (if s0.state = true then 2 * N - 1 else 2 * N)
            ∧ ((blinkRun (ledInitBlink now0 d N s0) ts).1).state = false))
    ∧ ((blinkRun (ledInitBlink now0 d N s0)
          (blinkSched (ledInitBlink now0 d N s0).lastBlinkTime
            (ledInitBlink now0 d N s0).blinkDelay
            (if s0.state = true then 2 * N - 1 else 2 * N))).1).blinking = false := by
  have hinv := blinkInv_init now0 d N s0 hN hw
  constructor
  · intro ts
    obtain ⟨hp, hrun, hstop⟩ := blinkRun_inv _ ts 0 _ hinv
    constructor
    · cases hbf : ((blinkRun (ledInitBlink now0 d N s0) ts).1).blinking
      · have := hstop hbf
        omega
      · have := (hrun hbf).2.2
        omega
    · intro hbf
      have h2 := hstop hbf
      exact ⟨by omega, h2.2⟩
  · refine blink_completes _ _ 0 _ hinv ?_ (by omega)
    simp [ledInitBlink]

/-- Witness for blink_finite_parity: a 2-blink (delay 10) on a fresh OFF
LED, polled on the generous schedule. -/
theorem blink_finite_parity_witness :
    ((blinkRun (ledInitBlink 0 10 2 initLedState) [5, 10, 15]).2
        ≤ (if initLedState.state = true then 2 * 2 - 1 else 2 * 2)
      ∧ (((blinkRun (ledInitBlink 0 10 2 initLedState) [5, 10, 15]).1).blinking = false →
           (blinkRun (ledInitBlink 0 10 2 initLedState) [5, 10, 15]).2
             = (if initLedState.state = true then 2 * 2 - 1 else 2 * 2)
           ∧ ((blinkRun (ledInitBlink 0 10 2 initLedState) [5, 10, 15]).1).state = false))
    ∧ ((blinkRun (ledInitBlink 0 10 2 initLedState)
          (blinkSched (ledInitBlink 0 10 2 initLedState).lastBlinkTime
            (ledInitBlink 0 10 2 initLedState).blinkDelay
            (if initLedState.state = true then 2 * 2 - 1 else 2 * 2))).1).blinking = false :=
  ⟨(blink_finite_parity 0 10 2 initLedState (by decide) (by decide)).1 [5, 10, 15],
   (blink_finite_parity 0 10 2 initLedState (by decide) (by decide)).2⟩

/-! ## C2 — debounce commitments of the button state machine -/

/-- Committed transitions are each at least the debounce window apart (and
at least a window after the initial accepted-transition timestamp). -/
theorem buttonRun_separation (D : Nat) (hD : 0 < D) :
    ∀ (trace : List (Nat × Bool)) (s : BtnState),
    sepFromB D s.lastDebounceTime (buttonRun D s trace).2 = true := by
  intro trace
  induction trace with
  | nil => intro s; rfl
  | cons p rest ih =>
    intro s
    obtain ⟨t, r⟩ := p
    by_cases hr : r ≠ s.oldState
    · by_cases ht : D ≤ t - s.lastDebounceTime
      · have hstep : buttonStep D s t r
            = ({ s with oldState := r, lastDebounceTime := t }, some r) := by
          simp [buttonStep, hr, ht]
        have h2 := ih { s with oldState := r, lastDebounceTime := t }
        simp only [buttonRun, hstep, List.singleton_append, sepFromB,
          Bool.and_eq_true, decide_eq_true_eq]
        exact ⟨by omega, h2⟩
      · have hstep : buttonStep D s t r = (s, none) := by simp [buttonStep, hr, ht]
        simpa [buttonRun, hstep] using ih s
    · have hstep : buttonStep D s t r = (s, none) := by simp [buttonStep, hr]
      simpa [buttonRun, hstep] using ih s

/-- A trace that never leaves the committed level leaves the machine
untouched and commits nothing. -/
theorem buttonRun_constant (D : Nat) :
    ∀ (trace : List (Nat × Bool)) (s : BtnState),
    (∀ p ∈ trace, p.2 = s.oldState) → buttonRun D s trace = (s, []) := by
  intro trace
  induction trace with
  | nil => intro s _; rfl
  | cons p rest ih =>
    intro s hall
    obtain ⟨t, r⟩ := p
    have hr : r = s.oldState := hall (t, r) (List.mem_cons_self _ _)
    have hstep : buttonStep D s t r = (s, none) := by simp [buttonStep, hr]
    simp [buttonRun, hstep, ih s (fun q hq => hall q (List.mem_cons_of_mem _ hq))]

/-- Once the raw signal has settled at level L, as soon as a sample arrives
a full debounce window after the last accepted transition, the committed
level is L and stays L. -/
theorem buttonRun_settles (D : Nat) (L : Bool) :
    ∀ (trace : List (Nat × Bool)) (s : BtnState),
    (∀ p ∈ trace, p.2 = L) →
    (∃ p ∈ trace, s.lastDebounceTime + D ≤ p.1) →
    ((buttonRun D s trace).1).oldState = L := by
  intro trace
  induction trace with
  | nil =>
    intro s _ hex
    simp at hex
  | cons p rest ih =>
    intro s hall hex
    obtain ⟨t, r⟩ := p
    have hr : r = L := hall (t, r) (List.mem_cons_self _ _)
    subst hr
    by_cases hold : r = s.oldState
    · have hconst : buttonRun D s ((t, r) :: rest) = (s, []) :=
        buttonRun_constant D _ s (fun q hq => (hall q hq).trans hold)
      rw [hconst]
      exact hold.symm
    · by_cases ht : D ≤ t - s.lastDebounceTime
      · have hstep : buttonStep D s t r
            = ({ s with oldState := r, lastDebounceTime := t }, some r) := by
          simp [buttonStep, hold, ht]
        have hconst := buttonRun_constant D rest
          { s with oldState := r, lastDebounceTime := t }
          (by
            intro q hq
            rw [hall q (List.mem_cons_of_mem _ hq)])
        simp [buttonRun, hstep, hconst]
      · have hstep : buttonStep D s t r = (s, none) := by
          by_cases hrne : r ≠ s.oldState
          · simp [buttonStep, hrne, ht]
          · simp [buttonStep, hrne]
        have hex' : ∃ p ∈ rest, s.lastDebounceTime + D ≤ p.1 := by
          obtain ⟨q, hq, hqt⟩ := hex
          rcases List.mem_cons.mp hq with hq1 | hq2
          · subst hq1
            exact absurd hqt (by omega)
          · exact ⟨q, hq2, hqt⟩
        have := ih s (fun q hq => hall q (List.mem_cons_of_mem _ hq)) hex'
        simpa [buttonRun, hstep] using this

/-- C2 counterexample: with the debounce window at 50 ticks, a raw trace
that reads LOW at t = 60 and first reads HIGH at t = 100 commits the HIGH
level at t = 100 even though the raw level was LOW 40 ticks earlier — the
committed level changes without the raw level having been stable for a full
debounce window; the code only requires a window since the last accepted
transition. -/
theorem button_commit_without_stability :
    (buttonRun 50
        { initDone := true, pin := 2, pressMode := 0, oldState := false,
          lastDebounceTime := 0 }
        [(60, false), (100, true)]).2 = [(100, true)]
    ∧ ¬(∀ p ∈ [((60 : Nat), false), (100, true)], 100 - p.1 < 50 → p.2 = true) := by
  decide

/-- C2 amended: the committed stable level changes at most once per debounce
window — consecutive commitments are at least the window apart, so
sub-window bounces are never committed — and once the raw signal has
settled at a level, the first sample a full window after the last accepted
transition commits that level, which then persists. -/
theorem button_debounce_amended (D : Nat) (hD : 0 < D) :
    (∀ (s0 : BtnState) (trace : List (Nat × Bool)),
       sepFromB D s0.lastDebounceTime (buttonRun D s0 trace).2 = true)
    ∧ (∀ (L : Bool) (s0 : BtnState) (trace : List (Nat × Bool)),
       (∀ p ∈ trace, p.2 = L) →
       (∃ p ∈ trace, s0.lastDebounceTime + D ≤ p.1) →
       ((buttonRun D s0 trace).1).oldState = L) :=
  ⟨fun s0 trace => buttonRun_separation D hD trace s0,
   fun L s0 trace hall hex => buttonRun_settles D L trace s0 hall hex⟩

/-- Witness for button_debounce_amended: window 50, a bouncy trace for the
separation conjunct and a settled HIGH trace for the settling conjunct. -/
theorem button_debounce_amended_witness :
    sepFromB 50
        ({ initDone := true, pin := 2, pressMode := 0, oldState := false,
           lastDebounceTime := 0 } : BtnState).lastDebounceTime
        (buttonRun 50
          { initDone := true, pin := 2, pressMode := 0, oldState := false,
            lastDebounceTime := 0 }
          [(10, true), (60, true), (70, false), (130, false)]).2 = true
    ∧ ((buttonRun 50
          { initDone := true, pin := 2, pressMode := 0, oldState := false,
            lastDebounceTime := 0 }
          [(60, true), (100, true)]).1).oldState = true :=
  ⟨(button_debounce_amended 50 (by decide)).1
      { initDone := true, pin := 2, pressMode := 0, oldState := false,
        lastDebounceTime := 0 }
      [(10, true), (60, true), (70, false), (130, false)],
   (button_debounce_amended 50 (by decide)).2 true
      { initDone := true, pin := 2, pressMode := 0, oldState := false,
        lastDebounceTime := 0 }
      [(60, true), (100, true)] (by decide) (by decide)⟩

/-! ## Analog pipeline lemmas -/

/-- The zone stage never touches the reported value or the change-callback
configuration. -/
theorem zoneStage_reported (s : AnalogState) :
    (zoneStage s).1.currentReportedValue = s.currentReportedValue
    ∧ (zoneStage s).1.hasChangeFunc = s.hasChangeFunc := by
  simp only [zoneStage]
  split
  · split
    · exact ⟨rfl, rfl⟩
    · exact ⟨rfl, rfl⟩
  · exact ⟨rfl, rfl⟩

/-- On a poll after the initial read whose sample completes the smoothing
window, update runs the full processing body on the accumulated state. -/
theorem analogUpdate_complete (raw : Nat) (s : AnalogState)
    (hinit : s.hasInitialRead = true)
    (hwin : (accumulate raw s).avgSamples ≤ (accumulate raw s).avgCount) :
    analogUpdate raw s = analogProcess (accumulate raw s) := by
  simp [analogUpdate, hinit, hwin]

/-- The quantized-hysteresis stability mode, restructured by whether the
candidate moved and in which direction. -/
theorem stabilize_quant (s : AnalogState) (h : Int) (hq : 0 < s.quantizeStep) :
    stabilize s h =
      if candidateOf s h = s.currentReportedValue then (false, h)
      else if s.currentReportedValue < candidateOf s h then
        (if s.currentReportedValue + Int.tdiv s.quantizeStep 2 + s.hysteresis_amount ≤ h
         then (true, candidateOf s h) else (false, h))
      else
        (if h ≤ s.currentReportedValue - Int.tdiv s.quantizeStep 2 - s.hysteresis_amount
         then (true, candidateOf s h) else (false, h)) := by
  simp only [stabilize, if_pos hq]
  by_cases h1 : candidateOf s h = s.currentReportedValue
  · rw [if_neg (by simpa using h1), if_pos h1]
  · rw [if_pos (by simpa using h1), if_neg h1]

/-- What the processing body does to the reported value and the onChange
event list, in terms of the stability-mode verdict. -/
theorem analogProcess_value (s : AnalogState) :
    (analogProcess s).1.currentReportedValue
        = (if (stabilize s (hiResOf s)).1 = true then (stabilize s (hiResOf s)).2
           else s.currentReportedValue)
    ∧ (analogProcess s).2.1
        = (if (stabilize s (hiResOf s)).1 = true ∧ s.hasChangeFunc = true
           then [(stabilize s (hiResOf s)).2] else []) := by
  simp only [analogProcess]
  cases hsv : stabilize s (hiResOf s) with
  | mk b v =>
    cases b
    · simp [(zoneStage_reported _).1]
    · simp [(zoneStage_reported _).1]

/-! ## C1 — quantized-hysteresis commit rule -/

/-- C1: on every poll after the initial read that completes the smoothing
window, update runs the processing body on the accumulated state; and in
quantized-hysteresis mode the processing body computes the candidate (the
hi-res value rounded half-away-from-zero to the nearest multiple of Q,
clamped to the output range) and commits it — firing onChange exactly once
with the new value — iff the hi-res value clears the trigger
currentReportedValue ± (Q/2 + H) in the direction of the move; otherwise
the reported value is unchanged and no onChange fires. -/
theorem analog_quantized_hysteresis :
    (∀ (raw : Nat) (s : AnalogState), s.hasInitialRead = true →
       (accumulate raw s).avgSamples ≤ (accumulate raw s).avgCount →
       analogUpdate raw s = analogProcess (accumulate raw s))
    ∧ (∀ s : AnalogState, 0 < s.quantizeStep → s.hasChangeFunc = true →
       ((s.currentReportedValue < candidateOf s (hiResOf s) →
          ((s.currentReportedValue + Int.tdiv s.quantizeStep 2 + s.hysteresis_amount
              ≤ hiResOf s →
              (analogProcess s).1.currentReportedValue = candidateOf s (hiResOf s)
              ∧ (analogProcess s).2.1 = [candidateOf s (hiResOf s)])
           ∧ (hiResOf s
                < s.currentReportedValue + Int.tdiv s.quantizeStep 2 + s.hysteresis_amount →
              (analogProcess s).1.currentReportedValue = s.currentReportedValue
              ∧ (analogProcess s).2.1 = [])))
        ∧ (candidateOf s (hiResOf s) < s.currentReportedValue →
          ((hiResOf s
              ≤ s.currentReportedValue - Int.tdiv s.quantizeStep 2 - s.hysteresis_amount →
              (analogProcess s).1.currentReportedValue = candidateOf s (hiResOf s)
              ∧ (analogProcess s).2.1 = [candidateOf s (hiResOf s)])
           ∧ (s.currentReportedValue - Int.tdiv s.quantizeStep 2 - s.hysteresis_amount
                < hiResOf s →
              (analogProcess s).1.currentReportedValue = s.currentReportedValue
              ∧ (analogProcess s).2.1 = [])))
        ∧ (candidateOf s (hiResOf s) = s.currentReportedValue →
            (analogProcess s).1.currentReportedValue = s.currentReportedValue
            ∧ (analogProcess s).2.1 = []))) := by
  constructor
  · intro raw s hinit hwin
    exact analogUpdate_complete raw s hinit hwin
  · intro s hq hcb
    refine ⟨fun hgt => ⟨fun hup => ?_, fun hnup => ?_⟩,
            fun hlt => ⟨fun hdn => ?_, fun hndn => ?_⟩, fun heq => ?_⟩
    · have hne : ¬(candidateOf s (hiResOf s) = s.currentReportedValue) := by omega
      constructor
      · rw [(analogProcess_value s).1, stabilize_quant s _ hq]
        simp [hne, hgt, hup]
      · rw [(analogProcess_value s).2, stabilize_quant s _ hq]
        simp [hne, hgt, hup, hcb]
    · have hne : ¬(candidateOf s (hiResOf s) = s.currentReportedValue) := by omega
      have hnup' : ¬(s.currentReportedValue + Int.tdiv s.quantizeStep 2 + s.hysteresis_amount
          ≤ hiResOf s) := by omega
      constructor
      · rw [(analogProcess_value s).1, stabilize_quant s _ hq]
        simp [hne, hgt, hnup']
      · rw [(analogProcess_value s).2, stabilize_quant s _ hq]
        simp [hne, hgt, hnup']
    · have hne : ¬(candidateOf s (hiResOf s) = s.currentReportedValue) := by omega
      have hngt : ¬(s.currentReportedValue < candidateOf s (hiResOf s)) := by omega
      constructor
      · rw [(analogProcess_value s).1, stabilize_quant s _ hq]
        simp [hne, hngt, hdn]
      · rw [(analogProcess_value s).2, stabilize_quant s _ hq]
        simp [hne, hngt, hdn, hcb]
    · have hne : ¬(candidateOf s (hiResOf s) = s.currentReportedValue) := by omega
      have hngt : ¬(s.currentReportedValue < candidateOf s (hiResOf s)) := by omega
      have hndn' : ¬(hiResOf s
          ≤ s.currentReportedValue - Int.tdiv s.quantizeStep 2 - s.hysteresis_amount) := by
        omega
      constructor
      · rw [(analogProcess_value s).1, stabilize_quant s _ hq]
        simp [hne, hngt, hndn']
      · rw [(analogProcess_value s).2, stabilize_quant s _ hq]
        simp [hne, hngt, hndn']
    · constructor
      · rw [(analogProcess_value s).1, stabilize_quant s _ hq]
        simp [heq]
      · rw [(analogProcess_value s).2, stabilize_quant s _ hq]
        simp [heq]

/-- A concrete quantized sensor: Q = 5, H = 1, ranges [0,100], reporting 10,
one-sample smoothing, after its initial read. -/
def quantSensor : AnalogState :=
  { initAnalogState with
    hasInitialRead := true
    quantizeStep := 5
    hysteresis_amount := 1
    hasChangeFunc := true
    inputMin := 0
    inputMax := 100
    outputMin := 0
    outputMax := 100
    currentReportedValue := 10
    currentValue := 10
    previousValue := 10 }

/-- Witness for analog_quantized_hysteresis: a raw sample of 13 completes
the window, yields hi-res 13 and candidate 15, and 13 reaches the upward
trigger 10 + 5/2 + 1 = 13, so 15 commits and onChange fires once with 15. -/
theorem analog_quantized_hysteresis_witness :
    analogUpdate 13 quantSensor = analogProcess (accumulate 13 quantSensor)
    ∧ ((analogProcess (accumulate 13 quantSensor)).1.currentReportedValue
          = candidateOf (accumulate 13 quantSensor) (hiResOf (accumulate 13 quantSensor))
        ∧ (analogProcess (accumulate 13 quantSensor)).2.1
          = [candidateOf (accumulate 13 quantSensor) (hiResOf (accumulate 13 quantSensor))]) :=
  ⟨analog_quantized_hysteresis.1 13 quantSensor (by decide) (by decide),
   ((analog_quantized_hysteresis.2 (accumulate 13 quantSensor) (by decide) (by decide)).1
      (by decide)).1 (by decide)⟩

/-- Accumulating a sample only touches the smoothing accumulator. -/
theorem accumulate_pres (raw : Nat) (s : AnalogState) :
    (accumulate raw s).zones = s.zones
    ∧ (accumulate raw s).previousZoneID = s.previousZoneID
    ∧ (accumulate raw s).hasZoneChangeFunc = s.hasZoneChangeFunc
    ∧ (accumulate raw s).currentReportedValue = s.currentReportedValue := by
  unfold accumulate
  split <;> exact ⟨rfl, rfl, rfl, rfl⟩

/-- What the processing body does to the zone state: the detected zone is
looked up on the (possibly just committed) reported value, both zone ids
end up at the detected zone, and the zone-change event fires exactly when
the detected zone differs from the previously classified one. -/
theorem analogProcess_zones (s : AnalogState) (hz : 0 < s.zones.length)
    (hzf : s.hasZoneChangeFunc = true) :
    (analogProcess s).1.currentZoneID
        = findZoneForValue s.zones (analogProcess s).1.currentReportedValue
    ∧ (analogProcess s).1.previousZoneID
        = findZoneForValue s.zones (analogProcess s).1.currentReportedValue
    ∧ (analogProcess s).2.2
        = (if findZoneForValue s.zones (analogProcess s).1.currentReportedValue
             ≠ s.previousZoneID
           then [findZoneForValue s.zones (analogProcess s).1.currentReportedValue]
           else []) := by
  simp only [analogProcess]
  cases hsv : stabilize s (hiResOf s) with
  | mk b v =>
    cases b
    · by_cases hd : findZoneForValue s.zones s.currentReportedValue = s.previousZoneID
      · simp [zoneStage, hz, hd, hzf]
      · simp [zoneStage, hz, hd, hzf]
    · by_cases hd : findZoneForValue s.zones v = s.previousZoneID
      · simp [zoneStage, hz, hd, hzf]
      · simp [zoneStage, hz, hd, hzf]

/-! ## C7 — zone classification and the zone-change event -/

/-- C7: findZoneForValue returns the no-match sentinel when no zone range
contains the value, and the id of the first zone in definition order whose
inclusive range contains it; after a window-completing update with zones
configured, both zone ids equal the zone detected on the (possibly just
committed) reported value and the zone-change callback fires iff that
detection differs from the previously classified zone; in particular a
window-completing update that leaves the reported value unchanged (with
the zone state in sync) fires no zone event. -/
theorem analog_zone_classification :
    (∀ (zs : List Zone) (v : Int),
       (∀ z ∈ zs, ¬(z.min_val ≤ v ∧ v ≤ z.max_val)) →
       findZoneForValue zs v = INVALID_HANDLE)
    ∧ (∀ (zs1 : List Zone) (z : Zone) (zs2 : List Zone) (v : Int),
       (∀ z' ∈ zs1, ¬(z'.min_val ≤ v ∧ v ≤ z'.max_val)) →
       z.min_val ≤ v → v ≤ z.max_val →
       findZoneForValue (zs1 ++ z :: zs2) v = z.id)
    ∧ (∀ (raw : Nat) (s : AnalogState), s.hasInitialRead = true →
       (accumulate raw s).avgSamples ≤ (accumulate raw s).avgCount →
       0 < s.zones.length → s.hasZoneChangeFunc = true →
       (analogUpdate raw s).1.currentZoneID
           = findZoneForValue s.zones (analogUpdate raw s).1.currentReportedValue
       ∧ (analogUpdate raw s).1.previousZoneID
           = findZoneForValue s.zones (analogUpdate raw s).1.currentReportedValue
       ∧ (analogUpdate raw s).2.2
           = (if findZoneForValue s.zones (analogUpdate raw s).1.currentReportedValue
                ≠ s.previousZoneID
              then [findZoneForValue s.zones (analogUpdate raw s).1.currentReportedValue]
              else []))
    ∧ (∀ (raw : Nat) (s : AnalogState), s.hasInitialRead = true →
       (accumulate raw s).avgSamples ≤ (accumulate raw s).avgCount →
       0 < s.zones.length → s.hasZoneChangeFunc = true →
       s.previousZoneID = findZoneForValue s.zones s.currentReportedValue →
       (analogUpdate raw s).1.currentReportedValue = s.currentReportedValue →
       (analogUpdate raw s).2.2 = []) := by
  have hfz3 : ∀ (raw : Nat) (s : AnalogState), s.hasInitialRead = true →
      (accumulate raw s).avgSamples ≤ (accumulate raw s).avgCount →
      0 < s.zones.length → s.hasZoneChangeFunc = true →
      (analogUpdate raw s).1.currentZoneID
          = findZoneForValue s.zones (analogUpdate raw s).1.currentReportedValue
      ∧ (analogUpdate raw s).1.previousZoneID
          = findZoneForValue s.zones (analogUpdate raw s).1.currentReportedValue
      ∧ (analogUpdate raw s).2.2
          = (if findZoneForValue s.zones (analogUpdate raw s).1.currentReportedValue
               ≠ s.previousZoneID
             then [findZoneForValue s.zones (analogUpdate raw s).1.currentReportedValue]
             else []) := by
    intro raw s hinit hwin hz hzf
    rw [analogUpdate_complete raw s hinit hwin]
    have hpres := accumulate_pres raw s
    have h := analogProcess_zones (accumulate raw s)
      (by rw [hpres.1]; exact hz) (by rw [hpres.2.2.1]; exact hzf)
    rw [hpres.1, hpres.2.1] at h
    exact h
  refine ⟨?_, ?_, hfz3, ?_⟩
  · intro zs v hno
    induction zs with
    | nil => rfl
    | cons z rest ih =>
      have h1 := hno z (List.mem_cons_self _ _)
      simp only [findZoneForValue, if_neg h1]
      exact ih (fun z' hz' => hno z' (List.mem_cons_of_mem _ hz'))
  · intro zs1 z zs2 v hno h1 h2
    induction zs1 with
    | nil => simp [findZoneForValue, h1, h2]
    | cons z' rest ih =>
      have hn := hno z' (List.mem_cons_self _ _)
      simp only [List.cons_append, findZoneForValue, if_neg hn]
      exact ih (fun q hq => hno q (List.mem_cons_of_mem _ hq))
  · intro raw s hinit hwin hz hzf hsync hsame
    have h := (hfz3 raw s hinit hwin hz hzf).2.2
    rw [hsame, ← hsync] at h
    simpa using h

/-- A concrete zoned sensor in raw mode: zones [0,20] (id 1) and [21,60]
(id 2), in sync at reported value 10 / zone 1, after its initial read. -/
def zoneSensor : AnalogState :=
  { initAnalogState with
    hasInitialRead := true
    inputMin := 0
    inputMax := 100
    outputMin := 0
    outputMax := 100
    currentReportedValue := 10
    currentValue := 10
    previousValue := 10
    zones := [{ id := 1, min_val := 0, max_val := 20 },
              { id := 2, min_val := 21, max_val := 60 }]
    currentZoneID := 1
    previousZoneID := 1
    hasZoneChangeFunc := true }

/-- Witness for analog_zone_classification: value 70 matches no zone, value
30 matches the second zone past a non-matching first, a raw sample of 30
fires one zone-change event to zone 2, and a raw sample of 10 (value
unchanged) fires none. -/
theorem analog_zone_classification_witness :
    findZoneForValue [{ id := 1, min_val := 0, max_val := 20 },
                      { id := 2, min_val := 21, max_val := 60 }] 70 = INVALID_HANDLE
    ∧ findZoneForValue ([{ id := 1, min_val := 0, max_val := 20 }]
        ++ { id := 2, min_val := 21, max_val := 60 } :: []) 30 = 2
    ∧ ((analogUpdate 30 zoneSensor).1.currentZoneID
          = findZoneForValue zoneSensor.zones
              (analogUpdate 30 zoneSensor).1.currentReportedValue
        ∧ (analogUpdate 30 zoneSensor).1.previousZoneID
          = findZoneForValue zoneSensor.zones
              (analogUpdate 30 zoneSensor).1.currentReportedValue
        ∧ (analogUpdate 30 zoneSensor).2.2
          = (if findZoneForValue zoneSensor.zones
                  (analogUpdate 30 zoneSensor).1.currentReportedValue
                ≠ zoneSensor.previousZoneID
             then [findZoneForValue zoneSensor.zones
                    (analogUpdate 30 zoneSensor).1.currentReportedValue]
             else []))
    ∧ (analogUpdate 10 zoneSensor).2.2 = [] :=
  ⟨analog_zone_classification.1 _ 70 (by decide),
   analog_zone_classification.2.1 _ _ [] 30 (by decide) (by decide) (by decide),
   analog_zone_classification.2.2.1 30 zoneSensor (by decide) (by decide)
     (by decide) (by decide),
   analog_zone_classification.2.2.2 10 zoneSensor (by decide) (by decide)
     (by decide) (by decide) (by decide) (by decide)⟩
